import Mathlib

/-!
# drv: the /proc gate of `sleep.c`, the message buffer of `sleep.c` / `procfs.c`,
# and the timer task of `sched.c`

A shallow embedding of the three kernel modules, for the Linux 2.2 branch of
their `#if LINUX_VERSION_CODE >= KERNEL_VERSION(2,2,0)` conditionals, followed
by the properties proved about them.

Conventions.
* C `int` values are `Int`; bytes (`char`) are `Nat`; `size_t` lengths are `Nat`.
* Kernel facilities that the modules call but do not define (errno values,
  `O_NONBLOCK`, `_NSIG_WORDS`, the module use count, wait queues, the timer task
  queue) are parameters or small explicit models, each marked as such.
* A call of `module_open` may sleep.  It is embedded as its straight-line
  segments: `module_open` is the code from entry to the first sleep or return,
  `module_open_wake` the code from the return of
  `module_interruptible_sleep_on` to the next sleep or return.
-/

namespace Sleep

/-! ## Kernel parameters -/

/-- Constants of the kernel headers used by `sleep.c`; none is defined in the
module.  Errno values are positive, as in every `errno.h`. -/
structure Kernel where
  O_NONBLOCK : Nat
  EAGAIN : Int
  EINTR : Int
  NSIG_WORDS : Nat
  EAGAIN_pos : 0 < EAGAIN
  EINTR_pos : 0 < EINTR

/-- The values of Linux 2.2 on i386 (`O_NONBLOCK` is octal 04000). -/
def i386 : Kernel :=
  { O_NONBLOCK := 2048, EAGAIN := 11, EINTR := 4, NSIG_WORDS := 2,
    EAGAIN_pos := by decide, EINTR_pos := by decide }

/-- The part of `struct task_struct` that `module_open` reads through
`current`: the words of `signal.sig` and of `blocked.sig`. -/
structure Task where
  pid : Nat
  signal : List Nat
  blocked : List Nat
deriving DecidableEq

/-- The part of `struct file` that `module_open` reads. -/
structure File where
  f_flags : Nat
deriving DecidableEq

/-! ## Module state -/

/-- The size of `Message`: `#define MESSAGE_LENGTH 80`. -/
def MESSAGE_LENGTH : Nat := 80

/-- The variables of `sleep.c` together with the kernel state its functions
act on.

* `Message`, `Already_Open`: the globals of those names.
* `finished`: the `static int finished` of `module_output`.
* `WaitQ`: the pids asleep on the wait queue `WaitQ`.
* `woken`: the pids that were asleep on `WaitQ`, have been made runnable
  (by `module_wake_up` or by a signal) and have not run yet.
* `use_count`: the module use count moved by `MOD_INC_USE_COUNT` and
  `MOD_DEC_USE_COUNT`. -/
structure State where
  Message : List Nat
  finished : Int
  Already_Open : Int
  WaitQ : List Nat
  woken : List Nat
  use_count : Int
deriving DecidableEq

/-- How a segment of `module_open` ends: the call returns `v`, or the caller
is asleep inside `module_interruptible_sleep_on`. -/
inductive Outcome where
  | ret (v : Int)
  | asleep
deriving DecidableEq

/-! ## Kernel primitives (models) -/

/-- Modelled from the spec: `MOD_INC_USE_COUNT` is a kernel macro, not defined in
the module; it adds one to the module use count (comment at `sleep.c:133`). -/
def MOD_INC_USE_COUNT (s : State) : State :=
  { s with use_count := s.use_count + 1 }

/-- Modelled from the spec: `MOD_DEC_USE_COUNT` is a kernel macro, not defined in
the module; it takes one off the module use count (comment at `sleep.c:180`). -/
def MOD_DEC_USE_COUNT (s : State) : State :=
  { s with use_count := s.use_count - 1 }

/-- Modelled from the spec: `module_interruptible_sleep_on` is a kernel
function, not defined in the module.  This is the first half of
`module_interruptible_sleep_on(&WaitQ)`: the caller joins the wait set and
suspends. -/
def module_interruptible_sleep_on (s : State) (cur : Task) : State :=
  { s with WaitQ := cur.pid :: s.WaitQ }

/-- Modelled from the spec: the second half of
`module_interruptible_sleep_on(&WaitQ)` (kernel function, not defined in the
module): the woken caller runs again and the call returns. -/
def sleep_on_return (s : State) (cur : Task) : State :=
  { s with woken := s.woken.erase cur.pid }

/-- Modelled from the spec: `module_wake_up` is a kernel macro (`wake_up`), not
defined in the module.  `module_wake_up(&WaitQ)` wakes all waiters, not just
one: every process asleep on the queue is made runnable (so also the comment
at `sleep.c:213`). -/
def module_wake_up (s : State) : State :=
  { s with WaitQ := [], woken := s.woken ++ s.WaitQ }

/-- Modelled from the spec: delivery of a signal to process `p` is done by the
kernel; a process in an interruptible sleep on `WaitQ` is made runnable. -/
def signal_wake_up (s : State) (p : Nat) : State :=
  if p ∈ s.WaitQ then { s with WaitQ := s.WaitQ.erase p, woken := p :: s.woken }
  else s

/-! ## The signal test of `module_open` (lines 173-174) -/

/-- Conversion of an `unsigned long` to `int` (both 32 bits wide on i386). -/
def to_int (x : Nat) : Int :=
  if x % 2 ^ 32 < 2 ^ 31 then (x % 2 ^ 32 : Nat) else ((x % 2 ^ 32 : Nat) : Int) - 2 ^ 32

/-- The word `current->signal.sig[i] & ~current->blocked.sig[i]`, on 32-bit
words. -/
def sig_word (cur : Task) (i : Nat) : Nat :=
  (cur.signal.getD i 0 % 2 ^ 32) &&& (2 ^ 32 - 1 - cur.blocked.getD i 0 % 2 ^ 32)

/-- The loop `for (i = 0; i < _NSIG_WORDS && !is_sig; i++) is_sig = ...;` with
the number of iterations left as fuel. -/
def sig_loop (K : Kernel) (cur : Task) : Nat → Nat → Int → Int
  | 0, _, is_sig => is_sig
  | fuel + 1, i, is_sig =>
    if i < K.NSIG_WORDS ∧ is_sig = 0 then sig_loop K cur fuel (i + 1) (to_int (sig_word cur i))
    else is_sig

/-- The value of `is_sig` after the loop (it starts at 0; the loop runs at
most `_NSIG_WORDS` times). -/
def is_sig (K : Kernel) (cur : Task) : Int :=
  sig_loop K cur K.NSIG_WORDS 0 0

/-! ## `module_open` and `module_close` -/

/-- The `while (Already_Open)` test of line 140 and what follows it up to the
next sleep or to `return 0`. -/
def module_open_loop (s : State) (cur : Task) : State × Outcome :=
  if s.Already_Open ≠ 0 then (module_interruptible_sleep_on s cur, Outcome.asleep)
  else ({ s with Already_Open := 1 }, Outcome.ret 0)

/-- The function `module_open` from its entry (lines 130-140). -/
def module_open (K : Kernel) (s : State) (cur : Task) (file : File) : State × Outcome :=
  if file.f_flags &&& K.O_NONBLOCK ≠ 0 ∧ s.Already_Open ≠ 0 then (s, Outcome.ret (-K.EAGAIN))
  else module_open_loop (MOD_INC_USE_COUNT s) cur

/-- The function `module_open` from the return of `module_interruptible_sleep_on`
(lines 152-190 and back to the loop test). -/
def module_open_wake (K : Kernel) (s : State) (cur : Task) : State × Outcome :=
  let s1 := sleep_on_return s cur
  if is_sig K cur ≠ 0 then (MOD_DEC_USE_COUNT s1, Outcome.ret (-K.EINTR))
  else module_open_loop s1 cur

/-- The function `module_close` (lines 201-223); the result is `return 0`. -/
def module_close (s : State) : State × Int :=
  (MOD_DEC_USE_COUNT (module_wake_up { s with Already_Open := 0 }), 0)

/-! ## The message buffer: `module_input` and `module_output` -/

/-- Modelled from the spec: `get_user` is a kernel macro, not defined in the
module; `get_user(Message[i], buf+i)` reads the byte at offset `i` of the user
buffer. -/
def get_user (buf : List Nat) (i : Nat) : Nat :=
  buf.getD i 0

/-- The loop of `module_input` (line 103): `fuel` bounds the iterations left,
`i` is the loop variable, `msg` the current contents of `Message`.  The result
is the final `i` and the final `Message`. -/
def input_loop (buf : List Nat) (length : Nat) : Nat → Nat → List Nat → Nat × List Nat
  | 0, i, msg => (i, msg)
  | fuel + 1, i, msg =>
    if i < MESSAGE_LENGTH - 1 ∧ i < length then
      input_loop buf length fuel (i + 1) (msg.set i (get_user buf i))
    else (i, msg)

/-- The function `module_input` (lines 85-114): copy, terminate with a zero byte, return
the number of bytes used. -/
def module_input (s : State) (buf : List Nat) (length : Nat) : State × Int :=
  let r := input_loop buf length MESSAGE_LENGTH 0 s.Message
  ({ s with Message := r.2.set r.1 0 }, (r.1 : Int))

/-- The characters of `"Last input:"`. -/
def LABEL : List Nat := [76, 97, 115, 116, 32, 105, 110, 112, 117, 116, 58]

/-- The C string stored in a character array: the bytes before the first
zero byte. -/
def c_str (a : List Nat) : List Nat :=
  a.takeWhile (fun c => c ≠ 0)

/-- Modelled from the spec: `sprintf` is a kernel function, not defined in the
module.  `sprintf(message, "Last input:%s\n", Message)` writes the label, the
string in `Message`, a newline and the terminating zero to the local array
`message`. -/
def sprintf_message (Message : List Nat) : List Nat :=
  LABEL ++ c_str Message ++ [10, 0]

/-- The loop of `module_output` (lines 74-75): `put_user(message[i], buf+i)`
while `i < len && message[i]`.  The result is the final `i` and the user
buffer. -/
def output_loop (message : List Nat) (len : Nat) : Nat → Nat → List Nat → Nat × List Nat
  | 0, i, buf => (i, buf)
  | fuel + 1, i, buf =>
    if i < len ∧ message.getD i 0 ≠ 0 then
      output_loop message len fuel (i + 1) (buf.set i (message.getD i 0))
    else (i, buf)

/-- The function `module_output` (lines 58-78) on a user buffer `buf` of `len` bytes: the
new state, the user buffer after the call, and the return value. -/
def module_output (s : State) (buf : List Nat) (len : Nat) : State × List Nat × Int :=
  if s.finished ≠ 0 then ({ s with finished := 0 }, buf, 0)
  else
    let message := sprintf_message s.Message
    let r := output_loop message len message.length 0 buf
    ({ s with finished := 1 }, r.2, (r.1 : Int))

/-! ## The step model of the gate -/

/-- A system state: the module state and the outstanding handles, one pid
for each `module_open` that returned 0 and has not been closed since. -/
structure Sys where
  st : State
  holders : List Nat
deriving DecidableEq

/-- What can happen next. -/
inductive Event where
  | call_open (cur : Task) (file : File)
  | wake (cur : Task)
  | call_close (p : Nat)
  | signal (p : Nat)
  | call_read (p : Nat) (buf : List Nat) (len : Nat)
  | call_write (p : Nat) (buf : List Nat)

/-- Record the end of a segment of `module_open` run by `pid`: a return of 0
makes `pid` a holder. -/
def settle (sys : Sys) (pid : Nat) (r : State × Outcome) : Sys :=
  { st := r.1, holders := if r.2 = Outcome.ret 0 then pid :: sys.holders else sys.holders }

/-- One atomic step.  An event that is not enabled leaves the state as it is.

* `call_open`: a process that is not inside `module_open` calls it.
* `wake`: a woken sleeper runs the code after the sleep; `cur` carries its
  signal words at that moment.
* `call_close`: a holder calls `module_close`.
* `signal`: a signal is delivered to a sleeper.
* `call_read`, `call_write`: a holder reads or writes the file. -/
def step (K : Kernel) (sys : Sys) : Event → Sys
  | Event.call_open cur file =>
    if cur.pid ∈ sys.st.WaitQ ∨ cur.pid ∈ sys.st.woken then sys
    else settle sys cur.pid (module_open K sys.st cur file)
  | Event.wake cur =>
    if cur.pid ∈ sys.st.woken then settle sys cur.pid (module_open_wake K sys.st cur)
    else sys
  | Event.call_close p =>
    if p ∈ sys.holders then
      { st := (module_close sys.st).1, holders := sys.holders.erase p }
    else sys
  | Event.signal p => { sys with st := signal_wake_up sys.st p }
  | Event.call_read p buf len =>
    if p ∈ sys.holders then { sys with st := (module_output sys.st buf len).1 } else sys
  | Event.call_write p buf =>
    if p ∈ sys.holders then { sys with st := (module_input sys.st buf buf.length).1 } else sys

/-- The state after loading the module: zeroed statics, nobody waiting. -/
def init : Sys :=
  { st := { Message := List.replicate MESSAGE_LENGTH 0, finished := 0, Already_Open := 0,
            WaitQ := [], woken := [], use_count := 0 },
    holders := [] }

/-- Run a sequence of events. -/
def run (K : Kernel) (sys : Sys) (evs : List Event) : Sys :=
  evs.foldl (step K) sys

/-- The states some sequence of events leads to from `init`. -/
def Reachable (K : Kernel) (sys : Sys) : Prop :=
  ∃ evs, run K init evs = sys

/-- Let the woken sleepers `ts` run one after the other, in this order, and
collect how each one's segment ends. -/
def wake_all (K : Kernel) (s : State) : List Task → State × List Outcome
  | [] => (s, [])
  | t :: ts =>
    let r := module_open_wake K s t
    let rest := wake_all K r.1 ts
    (rest.1, r.2 :: rest.2)

end Sleep

namespace Procfs

/-- The size of `Message` in `procfs.c`: `#define MESSAGE_LENGTH 80`. -/
def MESSAGE_LENGTH : Nat := 80

/-- Modelled from the spec: `get_user` is a kernel macro, not defined in the
module; `get_user(Message[i], buf+i)` reads the byte at offset `i` of the user
buffer. -/
def get_user (buf : List Nat) (i : Nat) : Nat :=
  buf.getD i 0

/-- The loop of `module_input` in `procfs.c` (line 105). -/
def input_loop (buf : List Nat) (length : Nat) : Nat → Nat → List Nat → Nat × List Nat
  | 0, i, msg => (i, msg)
  | fuel + 1, i, msg =>
    if i < MESSAGE_LENGTH - 1 ∧ i < length then
      input_loop buf length fuel (i + 1) (msg.set i (get_user buf i))
    else (i, msg)

/-- The function `module_input` of `procfs.c` (lines 88-129) on the global `Message`: the
new `Message` and the return value. -/
def module_input (Message : List Nat) (buf : List Nat) (length : Nat) : List Nat × Int :=
  let r := input_loop buf length MESSAGE_LENGTH 0 Message
  (r.2.set r.1 0, (r.1 : Int))

end Procfs

namespace Sched

/-- Where the life of the module stands.

* `fresh`: `init_module` has not run.
* `live`: `init_module` returned 0.
* `failed`: `init_module` returned an error; the module is not loaded.
* `flagged`: `cleanup_module` has executed `waitq = 1` and not yet `sleep_on`.
* `asleep`: `cleanup_module` is asleep on `WaitQ`.
* `woken`: `cleanup_module` has been woken and has not run yet.
* `gone`: `cleanup_module` has returned; the module is unloaded. -/
inductive Pc where
  | fresh | live | failed | flagged | asleep | woken | gone
deriving DecidableEq

/-- The variables of `sched.c` and the kernel state its functions act on:
`queued` says whether `Task` is on `tq_timer`, `proc_entry` whether
`/proc/sched` is registered. -/
structure State where
  TimerIntrpt : Int
  waitq : Int
  queued : Bool
  proc_entry : Bool
  pc : Pc
deriving DecidableEq

/-- Arithmetic on `int`: the result of an operation wraps to 32 bits. -/
def wrap_int (x : Int) : Int :=
  (x + 2 ^ 31) % 2 ^ 32 - 2 ^ 31

/-- Modelled from the spec: `wake_up` is a kernel function, not defined in the
module.  `wake_up(&WaitQ)` signals any waiter on the shutdown wait primitive:
whoever sleeps on `WaitQ` is made runnable; only `cleanup_module` ever sleeps
there. -/
def wake_up (s : State) : State :=
  if s.pc = Pc.asleep then { s with pc := Pc.woken } else s

/-- Modelled from the spec: `queue_task` is a kernel function, not defined in
the module.  `queue_task(&Task, &tq_timer)` registers the task for the next
tick. -/
def queue_task (s : State) : State :=
  { s with queued := true }

/-- The function `intrpt_routine` (lines 62-73). -/
def intrpt_routine (s : State) : State :=
  let s1 := { s with TimerIntrpt := wrap_int (s.TimerIntrpt + 1) }
  if s1.waitq ≠ 0 then wake_up s1 else queue_task s1

/-- Modelled from the spec: the timer interrupt is kernel code, not defined in
the module.  One tick of the clock: if `Task` is queued on `tq_timer` it is
taken off the queue and its routine is run. -/
def timer_tick (s : State) : State :=
  if s.queued then intrpt_routine { s with queued := false } else s

/-- The function `init_module` (lines 109-124); `proc_ok` says whether
`create_proc_read_entry` returned a non-NULL pointer. -/
def init_module (ENOMEM : Int) (proc_ok : Bool) (s : State) : State × Int :=
  let s1 := queue_task s
  let s2 := { s1 with proc_entry := proc_ok }
  if proc_ok = false then ({ s2 with pc := Pc.failed }, -ENOMEM)
  else ({ s2 with pc := Pc.live }, 0)

/-- The function `cleanup_module`, lines 130-140: `remove_proc_entry` and
`waitq = 1`. -/
def cleanup_enter (s : State) : State :=
  { s with proc_entry := false, waitq := 1, pc := Pc.flagged }

/-- The function `cleanup_module`, line 141: `sleep_on(&WaitQ)` puts the caller
to sleep (uninterruptibly). -/
def cleanup_sleep (s : State) : State :=
  { s with pc := Pc.asleep }

/-- The end of `cleanup_module`: `sleep_on` returns and so does
`cleanup_module`. -/
def cleanup_return (s : State) : State :=
  { s with pc := Pc.gone }

/-- What can happen next. -/
inductive Event where
  | load (proc_ok : Bool)
  | tick
  | unload_enter
  | unload_sleep
  | unload_return

/-- One atomic step; an event that is not enabled leaves the state as it is. -/
def step (ENOMEM : Int) (s : State) : Event → State
  | Event.load proc_ok => if s.pc = Pc.fresh then (init_module ENOMEM proc_ok s).1 else s
  | Event.tick => timer_tick s
  | Event.unload_enter => if s.pc = Pc.live then cleanup_enter s else s
  | Event.unload_sleep => if s.pc = Pc.flagged then cleanup_sleep s else s
  | Event.unload_return => if s.pc = Pc.woken then cleanup_return s else s

/-- The statics of `sched.c` before `init_module`. -/
def init : State :=
  { TimerIntrpt := 0, waitq := 0, queued := false, proc_entry := false, pc := Pc.fresh }

/-- Run a sequence of events. -/
def run (ENOMEM : Int) (s : State) (evs : List Event) : State :=
  evs.foldl (step ENOMEM) s

/-- The states some sequence of events leads to from `init`. -/
def Reachable (ENOMEM : Int) (s : State) : Prop :=
  ∃ evs, run ENOMEM init evs = s

/-- The number of times `intrpt_routine` is run in the course of `evs`
started in `s`: the ticks that find `Task` queued. -/
def routine_runs (ENOMEM : Int) : State → List Event → Nat
  | _, [] => 0
  | s, Event.tick :: evs => (if s.queued then 1 else 0) + routine_runs ENOMEM (step ENOMEM s Event.tick) evs
  | s, e :: evs => routine_runs ENOMEM (step ENOMEM s e) evs

end Sched

/-! # Auxiliary definitions: invariants, counters and sample states -/

namespace Sleep

/-- The gate invariant: either the gate is free and nobody holds it, or
`Already_Open` is 1 and exactly one handle is outstanding. -/
def GateInv (sys : Sys) : Prop :=
  (sys.st.Already_Open = 0 ∧ sys.holders = []) ∨
  (sys.st.Already_Open = 1 ∧ ∃ p, sys.holders = [p])

/-- Process 1, no signal pending. -/
def proc1 : Task := { pid := 1, signal := [0, 0], blocked := [0, 0] }

/-- Process 2, no signal pending. -/
def proc2 : Task := { pid := 2, signal := [0, 0], blocked := [0, 0] }

/-- Process 2 with `SIGINT` (bit 1 of word 0) pending and not blocked. -/
def proc2_sigint : Task := { pid := 2, signal := [2, 0], blocked := [0, 0] }

/-- A blocking open: `f_flags` without `O_NONBLOCK`. -/
def file_block : File := { f_flags := 0 }

/-- A non-blocking open: `f_flags = O_NONBLOCK` (i386 value). -/
def file_nonblock : File := { f_flags := 2048 }

/-- A state in which process 1 holds the gate and process 3 sleeps on the
queue. -/
def held_state : State :=
  { Message := List.replicate MESSAGE_LENGTH 0, finished := 0, Already_Open := 1,
    WaitQ := [3], woken := [], use_count := 2 }

/-- Process 3, no signal pending. -/
def proc3 : Task := { pid := 3, signal := [0, 0], blocked := [0, 0] }

/-- A state in which process 1 holds the gate and processes 2 and 3 sleep on
the queue. -/
def two_waiters : State :=
  { Message := List.replicate MESSAGE_LENGTH 0, finished := 0, Already_Open := 1,
    WaitQ := [3, 2], woken := [], use_count := 3 }

/-- Process 4, no signal pending: a newcomer that is not on the wait queue. -/
def proc4 : Task := { pid := 4, signal := [0, 0], blocked := [0, 0] }

/-- The history that leads to `two_waiters`: process 1 opens the file, then
processes 2 and 3 call a blocking `module_open` and go to sleep. -/
def gate_with_two_waiters : Sys :=
  run i386 init [Event.call_open proc1 file_block, Event.call_open proc2 file_block,
    Event.call_open proc3 file_block]

/-- A buffer of 90 bytes `'A'`. -/
def ninety : List Nat := List.replicate 90 65

/-- The formatted line without its terminating zero: the label, the string
in `Message`, a newline. -/
def output_line (Message : List Nat) : List Nat :=
  LABEL ++ c_str Message ++ [10]

/-- The bytes of `"hello"`. -/
def hello : List Nat := [104, 101, 108, 108, 111]

/-- The number of `module_output` calls made in the course of `evs` started
in `sys`: the `call_read` events of holders. -/
def outputs (K : Kernel) : Sys → List Event → Nat
  | _, [] => 0
  | sys, Event.call_read p buf len :: evs =>
    (if p ∈ sys.holders then 1 else 0) + outputs K (step K sys (Event.call_read p buf len)) evs
  | sys, e :: evs => outputs K (step K sys e) evs

/-- The history of one earlier session: process 1 opens the file, reads once
into a buffer of 100 bytes and closes. -/
def one_read_session : Sys :=
  run i386 init [Event.call_open proc1 file_block,
    Event.call_read 1 (List.replicate 100 0) 100, Event.call_close 1]

/-- A call of one of the two file operations that use `Message`:
`module_input` on a user buffer and a length, or `module_output` on a user
buffer and a length. -/
inductive IoCall where
  | input (buf : List Nat) (length : Nat)
  | output (buf : List Nat) (len : Nat)

/-- The state after one such call. -/
def io_step (s : State) : IoCall → State
  | IoCall.input buf length => (module_input s buf length).1
  | IoCall.output buf len => (module_output s buf len).1

/-- The state after a sequence of such calls. -/
def io_run (s : State) (calls : List IoCall) : State :=
  calls.foldl io_step s

/-- The array is 80 bytes long and one of its bytes is zero. -/
def Terminated (msg : List Nat) : Prop :=
  msg.length = MESSAGE_LENGTH ∧ ∃ j, j ≤ 79 ∧ msg[j]? = some 0

/-- Four calls: a write of 90 bytes, two reads, a write of `"hello"`. -/
def four_calls : List IoCall :=
  [IoCall.input ninety 90, IoCall.output (List.replicate 200 0) 200,
    IoCall.output (List.replicate 200 0) 200, IoCall.input hello 5]

end Sleep

namespace Sched

/-- The shutdown has begun: `waitq` is 1 and `cleanup_module` is past
`waitq = 1`. -/
def Stopping (s : State) : Prop :=
  s.waitq = 1 ∧ (s.pc = Pc.flagged ∨ s.pc = Pc.asleep ∨ s.pc = Pc.woken ∨ s.pc = Pc.gone)

/-- The invariant of the step model: `waitq` is 0 until `cleanup_module`
sets it, and once `cleanup_module` has been woken `Task` is off the queue. -/
def Inv (s : State) : Prop :=
  ((s.waitq = 0 ∧ (s.pc = Pc.fresh ∨ s.pc = Pc.live ∨ s.pc = Pc.failed)) ∨ Stopping s) ∧
  (s.pc = Pc.woken ∨ s.pc = Pc.gone → s.queued = false)

/-- The module is loaded, three ticks pass, and `cleanup_module` executes
`waitq = 1`. -/
def flag_raised : State :=
  run 12 init [Event.load true, Event.tick, Event.tick, Event.tick, Event.unload_enter]

/-- The shutdown invoked right after the start, with a tick between the two
steps of `cleanup_module`: the module is loaded, `cleanup_module` executes
`waitq = 1`, the timer ticks, and only then `cleanup_module` reaches
`sleep_on(&WaitQ)`. -/
def lost_wake_up : State :=
  run 12 init [Event.load true, Event.unload_enter, Event.tick, Event.unload_sleep]

/-- A running module whose counter has reached `INT_MAX`. -/
def counter_at_max : State :=
  { TimerIntrpt := 2147483647, waitq := 0, queued := false, proc_entry := true, pc := Pc.live }

/-- A module in shutdown, `cleanup_module` asleep, 41 ticks counted, `Task`
just taken off the queue by the timer. -/
def last_tick_due : State :=
  { TimerIntrpt := 41, waitq := 1, queued := false, proc_entry := false, pc := Pc.asleep }

/-- The task of a module whose `init_module` has failed: `waitq` is 0, `Task`
is on the queue, and nobody will ever call `cleanup_module`. -/
def Orphaned (s : State) : Prop :=
  s.pc = Pc.failed ∧ s.waitq = 0 ∧ s.queued = true

end Sched

/-! # Properties -/

namespace Sleep

/-! ## Mutual exclusion -/

theorem gateInv_init : GateInv init :=
  Or.inl ⟨rfl, rfl⟩

theorem module_open_loop_free (s : State) (cur : Task) (h : s.Already_Open = 0) :
    module_open_loop s cur = ({ s with Already_Open := 1 }, Outcome.ret 0) := by
  simp [module_open_loop, h]

theorem module_open_loop_held (s : State) (cur : Task) (h : s.Already_Open ≠ 0) :
    module_open_loop s cur = (module_interruptible_sleep_on s cur, Outcome.asleep) := by
  simp [module_open_loop, h]

theorem neg_errno_ne_zero {e : Int} (h : 0 < e) : Outcome.ret (-e) ≠ Outcome.ret 0 := by
  intro heq
  injection heq with h0
  omega

/-- A segment of `module_open` that starts from a state satisfying the
invariant ends in one, whichever way it goes through `module_open_loop`. -/
theorem gateInv_settle_loop (sys : Sys) (pid : Nat) (s1 : State) (cur : Task)
    (hinv : GateInv sys) (hopen : s1.Already_Open = sys.st.Already_Open) :
    GateInv (settle sys pid (module_open_loop s1 cur)) := by
  by_cases h0 : s1.Already_Open = 0
  · rw [module_open_loop_free s1 cur h0]
    rcases hinv with ⟨_, hh⟩ | ⟨h1, _⟩
    · exact Or.inr ⟨rfl, pid, by simp [settle, hh]⟩
    · rw [hopen, h1] at h0
      exact absurd h0 (by decide)
  · rw [module_open_loop_held s1 cur h0]
    rcases hinv with ⟨hz, _⟩ | ⟨h1, p, hp⟩
    · exact absurd (hopen.trans hz) h0
    · refine Or.inr ⟨?_, p, ?_⟩
      · simpa [settle, module_interruptible_sleep_on, hopen] using h1
      · simpa [settle] using hp

theorem gateInv_settle_err (sys : Sys) (pid : Nat) (s1 : State) {e : Int} (he : 0 < e)
    (hinv : GateInv sys) (hopen : s1.Already_Open = sys.st.Already_Open) :
    GateInv (settle sys pid (s1, Outcome.ret (-e))) := by
  have hne := neg_errno_ne_zero he
  rcases hinv with ⟨hz, hh⟩ | ⟨h1, p, hp⟩
  · exact Or.inl ⟨by simpa [settle, hopen] using hz, by simp [settle, hne, hh]⟩
  · exact Or.inr ⟨by simpa [settle, hopen] using h1, p, by simp [settle, hne, hp]⟩

theorem gateInv_step (K : Kernel) (sys : Sys) (e : Event) (hinv : GateInv sys) :
    GateInv (step K sys e) := by
  cases e with
  | call_open cur file =>
    simp only [step]
    split
    · exact hinv
    · unfold module_open
      split
      · exact gateInv_settle_err sys cur.pid sys.st K.EAGAIN_pos hinv rfl
      · exact gateInv_settle_loop sys cur.pid _ cur hinv rfl
  | wake cur =>
    simp only [step]
    split
    · unfold module_open_wake
      simp only []
      split
      · exact gateInv_settle_err sys cur.pid _ K.EINTR_pos hinv rfl
      · exact gateInv_settle_loop sys cur.pid _ cur hinv rfl
    · exact hinv
  | call_close p =>
    simp only [step]
    split
    · rename_i hp
      rcases hinv with ⟨_, hh⟩ | ⟨_, q, hq⟩
      · simp [hh] at hp
      · refine Or.inl ⟨rfl, ?_⟩
        rw [hq] at hp ⊢
        have : p = q := by simpa using hp
        simp [this]
    · exact hinv
  | signal p =>
    simp only [step, signal_wake_up]
    split
    · exact hinv
    · exact hinv
  | call_read p buf len =>
    simp only [step]
    split
    · have : (module_output sys.st buf len).1.Already_Open = sys.st.Already_Open := by
        unfold module_output
        split <;> rfl
      rcases hinv with ⟨hz, hh⟩ | ⟨h1, hp⟩
      · exact Or.inl ⟨this.trans hz, hh⟩
      · exact Or.inr ⟨this.trans h1, hp⟩
    · exact hinv
  | call_write p buf =>
    simp only [step]
    split
    · exact hinv
    · exact hinv

theorem gateInv_run (K : Kernel) (evs : List Event) :
    ∀ sys, GateInv sys → GateInv (run K sys evs) := by
  induction evs with
  | nil => intro sys h; exact h
  | cons e evs ih =>
    intro sys h
    exact ih (step K sys e) (gateInv_step K sys e h)

/-- C1 (mutual exclusion of the gate): in every state reachable from the
initial state by atomic segments of `module_open`, `module_close` steps of
holders, signal deliveries and reads and writes, at most one handle is
outstanding, and `Already_Open = 1` exactly when there is a holder. -/
theorem gate_mutual_exclusion (K : Kernel) (sys : Sys) (h : Reachable K sys) :
    sys.holders.length ≤ 1 ∧ (sys.st.Already_Open = 1 ↔ sys.holders ≠ []) := by
  obtain ⟨evs, rfl⟩ := h
  rcases gateInv_run K evs init gateInv_init with ⟨hz, hh⟩ | ⟨h1, p, hp⟩
  · refine ⟨by simp [hh], ?_⟩
    simp [hz, hh]
  · refine ⟨by simp [hp], ?_⟩
    simp [h1, hp]

/-- Witness for C1: after process 1 opened and process 2 went to sleep in a
blocking open, one handle is outstanding. -/
theorem gate_mutual_exclusion_witness :
    (run i386 init [Event.call_open proc1 file_block, Event.call_open proc2 file_block]).holders.length ≤ 1 ∧
    ((run i386 init [Event.call_open proc1 file_block, Event.call_open proc2 file_block]).st.Already_Open = 1 ↔
      (run i386 init [Event.call_open proc1 file_block, Event.call_open proc2 file_block]).holders ≠ []) :=
  gate_mutual_exclusion i386 _ ⟨_, rfl⟩

/-! ## `module_open`: the non-blocking refusal and the free gate -/

/-- C2: with the gate held (`Already_Open != 0`) and `O_NONBLOCK` set in
`f_flags`, `module_open` returns `-EAGAIN` at once (it does not sleep) and the
state is exactly what it was: `Already_Open`, the use count and the wait queue
are unchanged. -/
theorem module_open_nonblock_busy (K : Kernel) (s : State) (cur : Task) (file : File)
    (hheld : s.Already_Open ≠ 0) (hnb : file.f_flags &&& K.O_NONBLOCK ≠ 0) :
    module_open K s cur file = (s, Outcome.ret (-K.EAGAIN)) := by
  simp [module_open, hheld, hnb]

/-- Witness for C2. -/
theorem module_open_nonblock_busy_witness :
    module_open i386 held_state proc2 file_nonblock = (held_state, Outcome.ret (-11)) :=
  module_open_nonblock_busy i386 held_state proc2 file_nonblock (by decide) (by decide)

theorem module_open_of_free (K : Kernel) (s : State) (cur : Task) (file : File)
    (hfree : s.Already_Open = 0) :
    module_open K s cur file =
      ({ s with Already_Open := 1, use_count := s.use_count + 1 }, Outcome.ret 0) := by
  simp [module_open, module_open_loop, MOD_INC_USE_COUNT, hfree]

/-- C3: with the gate free (`Already_Open = 0`), `module_open` returns 0
without sleeping, in either mode (any `f_flags`) and whatever signals the
caller has pending (any `cur`); it sets `Already_Open` to 1, adds exactly one
to the use count and changes nothing else. -/
theorem module_open_free (K : Kernel) (s : State) (cur : Task) (file : File)
    (hfree : s.Already_Open = 0) :
    module_open K s cur file =
      ({ s with Already_Open := 1, use_count := s.use_count + 1 }, Outcome.ret 0) :=
  module_open_of_free K s cur file hfree

/-- Witness for C3: a non-blocking open by a process with a pending signal. -/
theorem module_open_free_witness :
    module_open i386 init.st proc2_sigint file_nonblock =
      ({ init.st with Already_Open := 1, use_count := init.st.use_count + 1 }, Outcome.ret 0) :=
  module_open_free i386 init.st proc2_sigint file_nonblock rfl

/-! ## The signal test -/

theorem sig_loop_of_ne_zero (K : Kernel) (cur : Task) (fuel i : Nat) (v : Int) (hv : v ≠ 0) :
    sig_loop K cur fuel i v = v := by
  cases fuel with
  | zero => rfl
  | succ n => simp [sig_loop, hv]

theorem sig_word_lt (cur : Task) (i : Nat) : sig_word cur i < 2 ^ 32 :=
  lt_of_le_of_lt Nat.and_le_left (Nat.mod_lt _ (by decide))

theorem to_int_eq_zero_iff (x : Nat) (hx : x < 2 ^ 32) : to_int x = 0 ↔ x = 0 := by
  unfold to_int
  rw [Nat.mod_eq_of_lt hx]
  split <;> omega

/-- From loop index `i` on with `is_sig` still 0: the loop ends with a
non-zero `is_sig` as soon as one of the remaining words is non-zero. -/
theorem sig_loop_ne_zero (K : Kernel) (cur : Task) :
    ∀ fuel i, i + fuel = K.NSIG_WORDS →
      (∃ j, i ≤ j ∧ j < K.NSIG_WORDS ∧ sig_word cur j ≠ 0) →
      sig_loop K cur fuel i 0 ≠ 0 := by
  intro fuel
  induction fuel with
  | zero =>
    intro i hi ⟨j, hij, hj, _⟩
    omega
  | succ n ih =>
    intro i hi ⟨j, hij, hj, hw⟩
    have hlt : i < K.NSIG_WORDS := by omega
    simp only [sig_loop, hlt, and_self, if_true]
    by_cases hz : sig_word cur i = 0
    · have : to_int (sig_word cur i) = 0 := (to_int_eq_zero_iff _ (sig_word_lt cur i)).2 hz
      rw [this]
      have hne : j ≠ i := fun h => hw (h ▸ hz)
      exact ih (i + 1) (by omega) ⟨j, by omega, hj, hw⟩
    · have : to_int (sig_word cur i) ≠ 0 := fun h => hz ((to_int_eq_zero_iff _ (sig_word_lt cur i)).1 h)
      rw [sig_loop_of_ne_zero K cur n (i + 1) _ this]
      exact this

theorem sig_loop_eq_zero (K : Kernel) (cur : Task)
    (hnone : ∀ j, j < K.NSIG_WORDS → sig_word cur j = 0) :
    ∀ fuel i, sig_loop K cur fuel i 0 = 0 := by
  intro fuel
  induction fuel with
  | zero => intro i; rfl
  | succ n ih =>
    intro i
    simp only [sig_loop]
    split
    · rename_i h
      rw [hnone i h.1]
      have : to_int 0 = 0 := by decide
      rw [this]
      exact ih (i + 1)
    · rfl

/-- A pending signal that is not blocked makes `is_sig` non-zero. -/
theorem is_sig_ne_zero (K : Kernel) (cur : Task)
    (h : ∃ j, j < K.NSIG_WORDS ∧ sig_word cur j ≠ 0) : is_sig K cur ≠ 0 := by
  obtain ⟨j, hj, hw⟩ := h
  exact sig_loop_ne_zero K cur K.NSIG_WORDS 0 (by omega) ⟨j, Nat.zero_le j, hj, hw⟩

/-- Without a pending unblocked signal `is_sig` stays 0. -/
theorem is_sig_eq_zero (K : Kernel) (cur : Task)
    (h : ∀ j, j < K.NSIG_WORDS → sig_word cur j = 0) : is_sig K cur = 0 :=
  sig_loop_eq_zero K cur h K.NSIG_WORDS 0

/-! ## The interrupted open -/

theorem wake_of_no_signal (K : Kernel) (s : State) (cur : Task) (h : is_sig K cur = 0) :
    module_open_wake K s cur = module_open_loop (sleep_on_return s cur) cur := by
  simp [module_open_wake, h]

/-- C4: a blocking `module_open` on a held gate goes to sleep on the wait
queue with the use count incremented.  When the sleeper wakes, in whatever
state `s`, with a pending signal that is not blocked, the call returns
`-EINTR`, `Already_Open` keeps the value it had at the wake-up, and the use
count is decremented again; if only the signal delivery lies between the two
segments, the whole call leaves the state exactly as it found it.  A
`module_open` made afterwards by any caller while `Already_Open = 0`
returns 0. -/
theorem module_open_interrupted (K : Kernel) (s0 s : State) (cur : Task) (file : File)
    (hheld : s0.Already_Open ≠ 0) (hblock : file.f_flags &&& K.O_NONBLOCK = 0)
    (hsig : ∃ j, j < K.NSIG_WORDS ∧ sig_word cur j ≠ 0) :
    module_open K s0 cur file =
        ({ s0 with use_count := s0.use_count + 1, WaitQ := cur.pid :: s0.WaitQ }, Outcome.asleep) ∧
      (module_open_wake K s cur).2 = Outcome.ret (-K.EINTR) ∧
      (module_open_wake K s cur).1.Already_Open = s.Already_Open ∧
      (module_open_wake K s cur).1.use_count = s.use_count - 1 ∧
      (module_open_wake K s cur).1.WaitQ = s.WaitQ ∧
      module_open_wake K (signal_wake_up (module_open K s0 cur file).1 cur.pid) cur =
        (s0, Outcome.ret (-K.EINTR)) ∧
      ∀ (other : Task) (file2 : File), (module_open_wake K s cur).1.Already_Open = 0 →
        (module_open K (module_open_wake K s cur).1 other file2).2 = Outcome.ret 0 := by
  have hs := is_sig_ne_zero K cur hsig
  have hopen : module_open K s0 cur file =
      ({ s0 with use_count := s0.use_count + 1, WaitQ := cur.pid :: s0.WaitQ }, Outcome.asleep) := by
    simp [module_open, module_open_loop, MOD_INC_USE_COUNT, module_interruptible_sleep_on,
      hheld, hblock]
  have hwake : ∀ t : State, module_open_wake K t cur =
      (MOD_DEC_USE_COUNT (sleep_on_return t cur), Outcome.ret (-K.EINTR)) := by
    intro t
    simp [module_open_wake, hs]
  refine ⟨hopen, ?_, ?_, ?_, ?_, ?_, ?_⟩
  · rw [hwake]
  · rw [hwake]; rfl
  · rw [hwake]; rfl
  · rw [hwake]; rfl
  · rw [hwake, hopen]
    simp [signal_wake_up, MOD_DEC_USE_COUNT, sleep_on_return]
  · intro other file2 hfree
    rw [module_open_of_free K _ other file2 hfree]

/-- Witness for C4: process 2 blocks on the gate held by process 1 and is
interrupted by `SIGINT`. -/
theorem module_open_interrupted_witness :
    module_open i386 held_state proc2_sigint file_block =
        ({ held_state with use_count := 3, WaitQ := [2, 3] }, Outcome.asleep) ∧
      module_open_wake i386
          (signal_wake_up (module_open i386 held_state proc2_sigint file_block).1 2) proc2_sigint =
        (held_state, Outcome.ret (-4)) :=
  have h := module_open_interrupted i386 held_state held_state proc2_sigint file_block
    (by decide) (by decide) ⟨0, by decide, by decide⟩
  ⟨h.1, h.2.2.2.2.2.1⟩

/-! ## Closing wakes all sleepers, one of them wins -/

theorem wake_all_held (K : Kernel) (us : List Task)
    (hnosig : ∀ u ∈ us, is_sig K u = 0) :
    ∀ m : State, m.Already_Open = 1 →
      wake_all K m us =
        ({ m with WaitQ := (us.map Task.pid).reverse ++ m.WaitQ,
                  woken := us.foldl (fun w u => w.erase u.pid) m.woken },
          List.replicate us.length Outcome.asleep) := by
  induction us with
  | nil => intro m _; simp [wake_all]
  | cons u us ih =>
    intro m hm
    have hu : is_sig K u = 0 := hnosig u (List.mem_cons_self u us)
    have hheld : (sleep_on_return m u).Already_Open ≠ 0 := by
      simp [sleep_on_return, hm]
    simp only [wake_all]
    rw [wake_of_no_signal K m u hu, module_open_loop_held _ u hheld]
    dsimp only
    rw [ih (fun v hv => hnosig v (List.mem_cons_of_mem u hv))
      (module_interruptible_sleep_on (sleep_on_return m u) u) hm]
    simp [module_interruptible_sleep_on, sleep_on_return, List.replicate_succ]

theorem foldl_erase_of_perm (us : List Task) :
    ∀ l : List Nat, List.Perm (us.map Task.pid) l →
      us.foldl (fun w u => w.erase u.pid) l = [] := by
  induction us with
  | nil =>
    intro l h
    simpa using h.symm.eq_nil
  | cons u us ih =>
    intro l h
    simp only [List.foldl_cons]
    apply ih
    have h2 := h.erase u.pid
    simpa using h2

theorem no_signal_of_words (K : Kernel) (ts : List Task)
    (h : ∀ u ∈ ts, ∀ j, j < K.NSIG_WORDS → sig_word u j = 0) :
    ∀ u ∈ ts, is_sig K u = 0 :=
  fun u hu => is_sig_eq_zero K u (h u hu)

/-- Running the woken sleepers `us` takes each of them off the list of woken
processes once: started from a list that holds `keep` and the pids of `us`,
what is left is `keep`, up to order. -/
theorem foldl_erase_perm_left (keep : List Nat) (us : List Task) :
    ∀ l : List Nat, List.Perm l (keep ++ us.map Task.pid) →
      List.Perm (us.foldl (fun w u => w.erase u.pid) l) keep := by
  induction us with
  | nil =>
    intro l h
    simpa using h
  | cons u us ih =>
    intro l h
    simp only [List.foldl_cons]
    apply ih
    have h1 : List.Perm (keep ++ (u :: us).map Task.pid) (u.pid :: (keep ++ us.map Task.pid)) := by
      simp
    have h2 := (h.trans h1).erase u.pid
    simpa using h2

/-- The re-check of a woken sleeper without pending signal, in any state: it
takes the gate if the gate is free, and goes back to sleep if it is not. -/
theorem wake_no_signal_eq (K : Kernel) (m : State) (u : Task) (h : is_sig K u = 0) :
    module_open_wake K m u =
      if m.Already_Open = 0 then
        ({ m with Already_Open := 1, woken := m.woken.erase u.pid }, Outcome.ret 0)
      else
        ({ m with WaitQ := u.pid :: m.WaitQ, woken := m.woken.erase u.pid }, Outcome.asleep) := by
  rw [wake_of_no_signal K m u h]
  by_cases h0 : m.Already_Open = 0
  · rw [if_pos h0, module_open_loop_free _ u (by simpa [sleep_on_return] using h0)]
    rfl
  · rw [if_neg h0, module_open_loop_held _ u (by simpa [sleep_on_return] using h0)]
    rfl

/-- Counterexample to C5 as stated.  Process 1 holds the gate, processes 2
and 3 sleep on the queue, neither with a pending signal, and process 1
closes, which wakes both.

* If a newcomer, process 4, calls `module_open` before the two run, it
  returns 0, and then both woken sleepers go back to sleep: none of them
  returns 0, not even the first to run its re-check.
* If process 2 runs first, returns 0 and closes before process 3 runs, then
  process 3 finds `Already_Open = 0` at its re-check and returns 0 too: two of
  them return 0. -/
theorem woken_sleepers_not_exactly_one_winner :
    gate_with_two_waiters.st = two_waiters ∧ gate_with_two_waiters.holders = [1] ∧
      (module_close two_waiters).1.woken = [3, 2] ∧
      (module_open i386 (module_close two_waiters).1 proc4 file_block).2 = Outcome.ret 0 ∧
      (wake_all i386 (module_open i386 (module_close two_waiters).1 proc4 file_block).1
        [proc2, proc3]).2 = [Outcome.asleep, Outcome.asleep] ∧
      (run i386 gate_with_two_waiters
        [Event.call_close 1, Event.call_open proc4 file_block, Event.wake proc2,
          Event.wake proc3]).holders = [4] ∧
      (module_open_wake i386 (module_close two_waiters).1 proc2).2 = Outcome.ret 0 ∧
      (module_open_wake i386
        (module_close (module_open_wake i386 (module_close two_waiters).1 proc2).1).1
        proc3).2 = Outcome.ret 0 ∧
      (run i386 gate_with_two_waiters
        [Event.call_close 1, Event.wake proc2, Event.call_close 2,
          Event.wake proc3]).holders = [3] := by
  decide

/-- C5 (amended): `module_close` returns 0, sets `Already_Open` to 0, empties
the wait queue and makes every sleeper runnable (all of them, not one).  In
any state, the re-check of one of these sleepers `t :: rest`, none of which
has a pending unblocked signal, returns 0 and sets `Already_Open` to 1 if
`Already_Open = 0` at that moment, and otherwise puts the caller back to
sleep, the only change being that it is on the wait queue again.  When the
N >= 1 sleepers run their re-checks one after the other, in any order and
with no other step in between, the first one returns 0 and sets
`Already_Open` to 1, and every other one finds `Already_Open = 1` and goes
back to sleep.  At the end the N-1 losers are on the queue, the processes
that were runnable before the close are the only runnable ones, and the use
count is one less than before the close. -/
theorem close_wakes_all_one_wins (K : Kernel) (s : State) (t : Task) (rest : List Task)
    (hq : List.Perm ((t :: rest).map Task.pid) s.WaitQ)
    (hnosig : ∀ u ∈ t :: rest, ∀ j, j < K.NSIG_WORDS → sig_word u j = 0) :
    module_close s =
        ({ s with Already_Open := 0, WaitQ := [], woken := s.woken ++ s.WaitQ,
                  use_count := s.use_count - 1 }, 0) ∧
      (∀ (m : State) (u : Task), u ∈ t :: rest →
        module_open_wake K m u =
          if m.Already_Open = 0 then
            ({ m with Already_Open := 1, woken := m.woken.erase u.pid }, Outcome.ret 0)
          else
            ({ m with WaitQ := u.pid :: m.WaitQ, woken := m.woken.erase u.pid },
              Outcome.asleep)) ∧
      module_open_wake K (module_close s).1 t =
        ({ (module_close s).1 with Already_Open := 1,
                                   woken := (module_close s).1.woken.erase t.pid },
          Outcome.ret 0) ∧
      (wake_all K (module_close s).1 (t :: rest)).2 =
        Outcome.ret 0 :: List.replicate rest.length Outcome.asleep ∧
      (∀ (before after : List Task) (u : Task), rest = before ++ u :: after →
        (wake_all K (module_close s).1 (t :: before)).1.Already_Open = 1 ∧
        module_open_wake K (wake_all K (module_close s).1 (t :: before)).1 u =
          ({ (wake_all K (module_close s).1 (t :: before)).1 with
               WaitQ := u.pid :: (wake_all K (module_close s).1 (t :: before)).1.WaitQ,
               woken := (wake_all K (module_close s).1 (t :: before)).1.woken.erase u.pid },
            Outcome.asleep)) ∧
      (wake_all K (module_close s).1 (t :: rest)).1.Already_Open = 1 ∧
      (wake_all K (module_close s).1 (t :: rest)).1.WaitQ = (rest.map Task.pid).reverse ∧
      List.Perm (wake_all K (module_close s).1 (t :: rest)).1.woken s.woken ∧
      (wake_all K (module_close s).1 (t :: rest)).1.use_count = s.use_count - 1 ∧
      (wake_all K (module_close s).1 (t :: rest)).1.Message = s.Message ∧
      (wake_all K (module_close s).1 (t :: rest)).1.finished = s.finished := by
  have hns := no_signal_of_words K (t :: rest) hnosig
  have ht : is_sig K t = 0 := hns t (List.mem_cons_self t rest)
  have hrest : ∀ u ∈ rest, is_sig K u = 0 := fun u hu => hns u (List.mem_cons_of_mem t hu)
  have hclose : module_close s =
      ({ s with Already_Open := 0, WaitQ := [], woken := s.woken ++ s.WaitQ,
                use_count := s.use_count - 1 }, 0) := by
    simp [module_close, MOD_DEC_USE_COUNT, module_wake_up]
  have hfirst : module_open_wake K (module_close s).1 t =
      ({ (module_close s).1 with Already_Open := 1,
                                 woken := (module_close s).1.woken.erase t.pid },
        Outcome.ret 0) := by
    rw [wake_of_no_signal K _ t ht, module_open_loop_free _ t (by rw [hclose]; rfl)]
    rfl
  have hall : ∀ us : List Task, (∀ u ∈ us, is_sig K u = 0) →
      wake_all K (module_close s).1 (t :: us) =
        ({ s with Already_Open := 1, WaitQ := (us.map Task.pid).reverse,
                  woken := us.foldl (fun w u => w.erase u.pid)
                    ((s.woken ++ s.WaitQ).erase t.pid),
                  use_count := s.use_count - 1 },
          Outcome.ret 0 :: List.replicate us.length Outcome.asleep) := by
    intro us hus
    simp only [wake_all]
    rw [hfirst, wake_all_held K us hus _ rfl, hclose]
    simp
  refine ⟨hclose, fun m u hu => wake_no_signal_eq K m u (hns u hu), hfirst, ?_, ?_,
    ?_, ?_, ?_, ?_, ?_, ?_⟩
  · rw [hall rest hrest]
  · intro before after u hsplit
    have hb : ∀ v ∈ before, is_sig K v = 0 := fun v hv => hrest v (by simp [hsplit, hv])
    have hu : is_sig K u = 0 := hrest u (by simp [hsplit])
    rw [hall before hb]
    refine ⟨rfl, ?_⟩
    rw [wake_of_no_signal K _ u hu, module_open_loop_held _ u (by simp [sleep_on_return])]
    rfl
  · rw [hall rest hrest]
  · rw [hall rest hrest]
  · rw [hall rest hrest]
    have hperm : List.Perm (s.woken ++ s.WaitQ) (s.woken ++ (t :: rest).map Task.pid) :=
      List.Perm.append_left s.woken hq.symm
    exact foldl_erase_perm_left s.woken (t :: rest) _ hperm
  · rw [hall rest hrest]
  · rw [hall rest hrest]
  · rw [hall rest hrest]

/-- Witness for C5 (amended): two sleepers, process 2 runs first and wins,
process 3 runs right after it and goes back to sleep; in the step model this
is the run close, wake of process 2, wake of process 3, after which process 2
is the holder. -/
theorem close_wakes_all_one_wins_witness :
    (module_close two_waiters).1.woken = [3, 2] ∧
      (wake_all i386 (module_close two_waiters).1 [proc2, proc3]).2 =
        [Outcome.ret 0, Outcome.asleep] ∧
      (wake_all i386 (module_close two_waiters).1 [proc2, proc3]).1.Already_Open = 1 ∧
      (wake_all i386 (module_close two_waiters).1 [proc2, proc3]).1.WaitQ = [3] ∧
      (wake_all i386 (module_close two_waiters).1 [proc2, proc3]).1.woken = [] ∧
      (wake_all i386 (module_close two_waiters).1 [proc2, proc3]).1.use_count = 2 ∧
      (run i386 gate_with_two_waiters
        [Event.call_close 1, Event.wake proc2, Event.wake proc3]).st =
        (wake_all i386 (module_close two_waiters).1 [proc2, proc3]).1 ∧
      (run i386 gate_with_two_waiters
        [Event.call_close 1, Event.wake proc2, Event.wake proc3]).holders = [2] :=
  have h := close_wakes_all_one_wins i386 two_waiters proc2 [proc3]
    (by decide) (by decide)
  ⟨by rw [h.1]; rfl, h.2.2.2.1, h.2.2.2.2.2.1, h.2.2.2.2.2.2.1,
    List.Perm.eq_nil h.2.2.2.2.2.2.2.1, h.2.2.2.2.2.2.2.2.1, by decide, by decide⟩

end Sleep

/-! ## Copy loops -/

/-- Overwriting position `i` of an array whose first `i` cells already hold
`src` extends the copied part by one cell. -/
theorem set_take_append_drop (src orig : List Nat) (i : Nat)
    (hs : i < src.length) (ho : i < orig.length) :
    (src.take i ++ orig.drop i).set i (src.getD i 0) = src.take (i + 1) ++ orig.drop (i + 1) := by
  have hlen : (src.take i).length = i := by simp [List.length_take]; omega
  rw [List.set_append_right i _ (by omega), hlen, Nat.sub_self,
    List.drop_eq_getElem_cons ho, List.set_cons_zero, List.take_succ,
    List.getD_eq_getElem _ 0 hs, List.getElem?_eq_getElem hs]
  simp only [Option.toList_some, List.append_assoc, List.singleton_append]

namespace Sleep

/-- The loop of `module_input`, started at index `i` with the first `i`
cells copied, stops at `k = min(length, 79)` with the first `k` cells copied
and the rest of `Message` as it was. -/
theorem input_loop_copies (buf orig : List Nat) (length k : Nat)
    (hk : k = min length (MESSAGE_LENGTH - 1)) (hb : k ≤ buf.length) (ho : k < orig.length) :
    ∀ fuel i, i ≤ k → k ≤ i + fuel →
      input_loop buf length fuel i (buf.take i ++ orig.drop i) =
        (k, buf.take k ++ orig.drop k) := by
  intro fuel
  induction fuel with
  | zero =>
    intro i hik hfuel
    have : i = k := by omega
    simp [input_loop, this]
  | succ n ih =>
    intro i hik hfuel
    simp only [input_loop]
    split
    · rename_i hc
      have hlt : i < k := by rw [hk]; exact lt_min hc.2 hc.1
      rw [get_user, set_take_append_drop buf orig i (by omega) (by omega)]
      exact ih (i + 1) hlt (by omega)
    · rename_i hc
      have : i = k := by
        rw [not_and_or] at hc
        rw [hk] at hik ⊢
        rcases hc with h | h
        · have := min_le_right length (MESSAGE_LENGTH - 1); omega
        · have := min_le_left length (MESSAGE_LENGTH - 1); omega
      simp [this]

/-- What `module_input` does to a `Message` of 80 bytes. -/
theorem module_input_eq (s : State) (buf : List Nat) (h : s.Message.length = MESSAGE_LENGTH) :
    module_input s buf buf.length =
      ({ s with Message := buf.take (min buf.length 79) ++ 0 :: s.Message.drop (min buf.length 79 + 1) },
        ((min buf.length 79 : Nat) : Int)) := by
  have hk79 : min buf.length 79 ≤ 79 := min_le_right _ _
  have hkb : min buf.length 79 ≤ buf.length := min_le_left _ _
  have hM : s.Message.length = 80 := h
  have hloop := input_loop_copies buf s.Message buf.length (min buf.length 79) rfl hkb
    (by omega) MESSAGE_LENGTH 0 (Nat.zero_le _) (by simp [MESSAGE_LENGTH])
  simp only [List.take_zero, List.drop_zero, List.nil_append] at hloop
  simp only [module_input, hloop]
  have hlen : (buf.take (min buf.length 79)).length = min buf.length 79 := by
    simp [List.length_take]
  rw [List.set_append_right _ _ (by omega), hlen, Nat.sub_self,
    List.drop_eq_getElem_cons (by omega), List.set_cons_zero]

end Sleep

namespace Procfs

theorem input_loop_eq_sleep (buf : List Nat) (length : Nat) :
    ∀ fuel i msg, input_loop buf length fuel i msg = Sleep.input_loop buf length fuel i msg := by
  intro fuel
  induction fuel with
  | zero => intro i msg; rfl
  | succ n ih =>
    intro i msg
    simp only [input_loop, Sleep.input_loop, ih]
    rfl

end Procfs

namespace Sleep

/-- C6: on a `Message` of 80 bytes and an input buffer of `n` bytes,
`module_input` stores the first `k = min(n, 79)` input bytes in
`Message[0..k-1]`, in order, writes a zero byte at `Message[k]`, leaves
`Message[k+1..79]` as it was and returns `k`; an input of 80 bytes or more
(90, say) stores 79 bytes and the terminator and returns 79.  The
`module_input` of `procfs.c` does the same. -/
theorem module_input_stores (s : State) (M buf : List Nat)
    (hs : s.Message.length = MESSAGE_LENGTH) (hM : M.length = Procfs.MESSAGE_LENGTH) :
    module_input s buf buf.length =
        ({ s with Message :=
             buf.take (min buf.length 79) ++ 0 :: s.Message.drop (min buf.length 79 + 1) },
          ((min buf.length 79 : Nat) : Int)) ∧
      (80 ≤ buf.length →
        module_input s buf buf.length = ({ s with Message := buf.take 79 ++ [0] }, 79)) ∧
      Procfs.module_input M buf buf.length =
        (buf.take (min buf.length 79) ++ 0 :: M.drop (min buf.length 79 + 1),
          ((min buf.length 79 : Nat) : Int)) ∧
      (80 ≤ buf.length → Procfs.module_input M buf buf.length = (buf.take 79 ++ [0], 79)) := by
  have h1 := module_input_eq s buf hs
  have h2 : Procfs.module_input M buf buf.length =
      (buf.take (min buf.length 79) ++ 0 :: M.drop (min buf.length 79 + 1),
        ((min buf.length 79 : Nat) : Int)) := by
    have h := module_input_eq { s with Message := M } buf hM
    simp only [module_input, Prod.mk.injEq, State.mk.injEq] at h
    simp only [Procfs.module_input, Procfs.input_loop_eq_sleep, Prod.mk.injEq]
    exact ⟨h.1.1, h.2⟩
  refine ⟨h1, ?_, h2, ?_⟩
  · intro hbig
    have hk : min buf.length 79 = 79 := min_eq_right (by omega)
    have hd : s.Message.drop 80 = [] := List.drop_of_length_le (by rw [hs]; decide)
    rw [h1, hk, hd]
    rfl
  · intro hbig
    have hk : min buf.length 79 = 79 := min_eq_right (by omega)
    have hd : M.drop 80 = [] := List.drop_of_length_le (by rw [hM]; decide)
    rw [h2, hk, hd]
    rfl

/-- Witness for C6: 90 bytes written to the zeroed `Message`. -/
theorem module_input_stores_witness :
    module_input init.st ninety ninety.length =
        ({ init.st with Message := ninety.take 79 ++ [0] }, 79) ∧
      Procfs.module_input (List.replicate 80 0) ninety ninety.length =
        (ninety.take 79 ++ [0], 79) :=
  have h := module_input_stores init.st (List.replicate 80 0) ninety (by decide) (by decide)
  ⟨h.2.1 (by decide), h.2.2.2 (by decide)⟩

/-! ## `module_output` -/

theorem sprintf_message_eq (Message : List Nat) :
    sprintf_message Message = output_line Message ++ 0 :: [] := by
  simp [sprintf_message, output_line]

theorem output_line_ne_zero (Message : List Nat) : ∀ c ∈ output_line Message, c ≠ 0 := by
  intro c hc
  simp only [output_line, List.mem_append, List.mem_singleton] at hc
  rcases hc with (hc | hc) | hc
  · intro h0
    rw [h0] at hc
    exact absurd hc (by decide)
  · have := List.mem_takeWhile_imp hc
    simpa using this
  · omega

theorem output_line_length (Message : List Nat) :
    (output_line Message).length = 12 + (c_str Message).length := by
  simp [output_line, LABEL]
  omega

/-- The loop of `module_output` on a zero-terminated `message = body ++ 0 :: rest`,
started at index `i` with the first `i` cells of the user buffer written,
stops at `k = min(len, strlen(message))` with the first `k` cells written and
the rest of the user buffer as it was. -/
theorem output_loop_copies (body rest orig : List Nat) (len k : Nat)
    (hbody : ∀ c ∈ body, c ≠ 0) (hk : k = min len body.length) (ho : k ≤ orig.length) :
    ∀ fuel i, i ≤ k → k ≤ i + fuel →
      output_loop (body ++ 0 :: rest) len fuel i (body.take i ++ orig.drop i) =
        (k, body.take k ++ orig.drop k) := by
  have hklen : k ≤ len := by rw [hk]; exact min_le_left _ _
  have hkbody : k ≤ body.length := by rw [hk]; exact min_le_right _ _
  have hget : ∀ i, i < body.length → (body ++ 0 :: rest).getD i 0 = body.getD i 0 := by
    intro i hi
    rw [List.getD_eq_getElem _ 0 (by simp; omega), List.getD_eq_getElem _ 0 hi,
      List.getElem_append_left hi]
  have hend : (body ++ 0 :: rest).getD body.length 0 = 0 := by
    rw [List.getD_eq_getElem _ 0 (by simp), List.getElem_append_right (le_refl _)]
    simp
  have hstop : ¬ (k < len ∧ (body ++ 0 :: rest).getD k 0 ≠ 0) := by
    rintro ⟨h1, h2⟩
    have : k = body.length := by
      rw [hk] at h1 ⊢
      rcases Nat.le_total len body.length with h | h
      · rw [min_eq_left h] at h1; omega
      · exact min_eq_right h
    rw [this] at h2
    exact h2 hend
  intro fuel
  induction fuel with
  | zero =>
    intro i hik hfuel
    have : i = k := by omega
    simp [output_loop, this]
  | succ n ih =>
    intro i hik hfuel
    simp only [output_loop]
    rcases Nat.lt_or_ge i k with hlt | hge
    · have hib : i < body.length := by omega
      have hne : (body ++ 0 :: rest).getD i 0 ≠ 0 := by
        rw [hget i hib, List.getD_eq_getElem _ 0 hib]
        exact hbody _ (List.getElem_mem hib)
      rw [if_pos ⟨by omega, hne⟩, hget i hib,
        set_take_append_drop body orig i hib (by omega)]
      exact ih (i + 1) hlt (by omega)
    · have : i = k := by omega
      rw [this, if_neg hstop]

/-- What `module_output` does when `finished = 0`, on a user buffer of at
least `len` bytes: it writes the first `min(len, 12 + strlen(Message))` bytes
of the formatted line, returns their number and sets `finished`. -/
theorem module_output_fresh (s : State) (buf : List Nat) (len : Nat)
    (hfin : s.finished = 0) (hbuf : len ≤ buf.length) :
    module_output s buf len =
      ({ s with finished := 1 },
        (output_line s.Message).take (min len (output_line s.Message).length) ++
          buf.drop (min len (output_line s.Message).length),
        ((min len (output_line s.Message).length : Nat) : Int)) := by
  have hk : min len (output_line s.Message).length ≤ len := min_le_left _ _
  have hloop := output_loop_copies (output_line s.Message) [] buf len
    (min len (output_line s.Message).length) (output_line_ne_zero s.Message) rfl (by omega)
    (sprintf_message s.Message).length 0 (Nat.zero_le _)
    (by rw [sprintf_message_eq]; simp)
  simp only [List.take_zero, List.drop_zero, List.nil_append] at hloop
  rw [← sprintf_message_eq] at hloop
  simp [module_output, hfin, hloop]

/-- What `module_output` does when `finished` is set: it clears the flag,
writes nothing and returns 0. -/
theorem module_output_finished (s : State) (buf : List Nat) (len : Nat)
    (hfin : s.finished ≠ 0) :
    module_output s buf len = ({ s with finished := 0 }, buf, 0) := by
  simp [module_output, hfin]

theorem c_str_terminated (w rest : List Nat) (hw : ∀ c ∈ w, c ≠ 0) :
    c_str (w ++ 0 :: rest) = w := by
  unfold c_str
  rw [List.takeWhile_append_of_pos (by simpa using hw)]
  simp

/-- C7 (write, then read, then read again): from a state with `finished = 0`
and an 80-byte `Message`, for a string `w` without zero byte and of length at
most 79, `module_input(w)` returns `|w|`; the `module_output` that follows,
on a user buffer of `len >= |w| + 12` bytes, writes exactly
`"Last input:" ++ w ++ "\n"` to the start of the buffer and returns
`|w| + 12`; the next `module_output`, on any buffer, writes nothing and
returns 0. -/
theorem write_then_read (s : State) (w buf : List Nat) (len : Nat)
    (hs : s.Message.length = MESSAGE_LENGTH) (hfin : s.finished = 0)
    (hw0 : ∀ c ∈ w, c ≠ 0) (hw : w.length ≤ 79)
    (hbuf : len ≤ buf.length) (hroom : w.length + 12 ≤ len) :
    (module_input s w w.length).2 = (w.length : Int) ∧
      (module_output (module_input s w w.length).1 buf len).2.2 = ((w.length + 12 : Nat) : Int) ∧
      (module_output (module_input s w w.length).1 buf len).2.1 =
        LABEL ++ w ++ [10] ++ buf.drop (w.length + 12) ∧
      ∀ (buf2 : List Nat) (len2 : Nat),
        (module_output (module_output (module_input s w w.length).1 buf len).1 buf2 len2).2 =
          (buf2, 0) := by
  have hk : min w.length 79 = w.length := min_eq_left hw
  have hin := module_input_eq s w hs
  rw [hk, List.take_length] at hin
  have hline : output_line (w ++ 0 :: s.Message.drop (w.length + 1)) = LABEL ++ w ++ [10] := by
    rw [output_line, c_str_terminated w _ hw0]
  have hll : (LABEL ++ w ++ [10]).length = w.length + 12 := by
    simp [LABEL]
  have hout := module_output_fresh (module_input s w w.length).1 buf len
    (by rw [hin]; exact hfin) hbuf
  rw [hin] at hout ⊢
  simp only [hline, hll, min_eq_right hroom] at hout
  rw [← hll, List.take_length, hll] at hout
  rw [hout]
  refine ⟨rfl, rfl, rfl, ?_⟩
  intro buf2 len2
  rw [module_output_finished _ buf2 len2 (by simp)]

/-- Witness for C7: `"hello"` written to the fresh module and read back into
a buffer of 20 bytes. -/
theorem write_then_read_witness :
    (module_input init.st hello hello.length).2 = 5 ∧
      (module_output (module_input init.st hello hello.length).1 (List.replicate 20 0) 20).2.2 = 17 ∧
      (module_output (module_input init.st hello hello.length).1 (List.replicate 20 0) 20).2.1 =
        LABEL ++ hello ++ [10] ++ [0, 0, 0] :=
  have h := write_then_read init.st hello (List.replicate 20 0) 20
    (by decide) rfl (by decide) (by decide) (by decide) (by decide)
  ⟨h.1, h.2.1, h.2.2.1⟩

/-! ## The `finished` flag across sessions -/

theorem module_open_loop_finished (s : State) (cur : Task) :
    (module_open_loop s cur).1.finished = s.finished := by
  unfold module_open_loop
  split <;> rfl

theorem module_open_finished (K : Kernel) (s : State) (cur : Task) (file : File) :
    (module_open K s cur file).1.finished = s.finished := by
  unfold module_open
  split
  · rfl
  · rw [module_open_loop_finished]; rfl

theorem module_open_wake_finished (K : Kernel) (s : State) (cur : Task) :
    (module_open_wake K s cur).1.finished = s.finished := by
  unfold module_open_wake
  simp only []
  split
  · rfl
  · rw [module_open_loop_finished]; rfl

theorem module_output_toggles (s : State) (buf : List Nat) (len : Nat) :
    (module_output s buf len).1.finished = if s.finished = 0 then 1 else 0 := by
  unfold module_output
  split
  · rename_i h; simp [h]
  · rename_i h; simp at h; simp [h]

/-- Every step but an executed read leaves `finished` alone; an executed
read toggles it. -/
theorem step_finished (K : Kernel) (sys : Sys) (e : Event) :
    (step K sys e).st.finished =
      if outputs K sys [e] = 1 then (if sys.st.finished = 0 then 1 else 0)
      else sys.st.finished := by
  cases e with
  | call_open cur file =>
    simp only [step, outputs]
    split
    · rfl
    · simp [settle, module_open_finished]
  | wake cur =>
    simp only [step, outputs]
    split
    · simp [settle, module_open_wake_finished]
    · rfl
  | call_close p =>
    simp only [step, outputs]
    split <;> simp [module_close, MOD_DEC_USE_COUNT, module_wake_up]
  | signal p =>
    simp only [step, outputs, signal_wake_up]
    split <;> simp
  | call_read p buf len =>
    simp only [step, outputs]
    split
    · simp [module_output_toggles]
    · simp
  | call_write p buf =>
    simp only [step, outputs]
    split <;> simp [module_input]

theorem outputs_cons (K : Kernel) (sys : Sys) (e : Event) (evs : List Event) :
    outputs K sys (e :: evs) = outputs K sys [e] + outputs K (step K sys e) evs := by
  cases e <;> simp [outputs]

theorem outputs_single_le (K : Kernel) (sys : Sys) (e : Event) : outputs K sys [e] ≤ 1 := by
  cases e <;> simp [outputs]
  split <;> simp

/-- After any run from a state whose flag is 0 or 1, `finished` is the
parity of the flag plus the number of `module_output` calls made. -/
theorem finished_parity (K : Kernel) (evs : List Event) :
    ∀ sys : Sys, (sys.st.finished = 0 ∨ sys.st.finished = 1) →
      (run K sys evs).st.finished = (((sys.st.finished.toNat + outputs K sys evs) % 2 : Nat) : Int) := by
  induction evs with
  | nil =>
    intro sys h
    rcases h with h | h <;> simp [run, outputs, h]
  | cons e evs ih =>
    intro sys h
    have hstep := step_finished K sys e
    have hle := outputs_single_le K sys e
    have h01 : (step K sys e).st.finished = 0 ∨ (step K sys e).st.finished = 1 := by
      rw [hstep]
      rcases h with h | h <;> simp [h] <;> omega
    have hrun : run K sys (e :: evs) = run K (step K sys e) evs := rfl
    rw [hrun, ih (step K sys e) h01, outputs_cons, hstep]
    rcases h with h | h <;> rcases Nat.le_one_iff_eq_zero_or_eq_one.1 hle with h1 | h1 <;>
      (simp [h, h1]; try omega)

/-- Counterexample to C8 as stated: after a session that made one
`module_output` call, the gate is free, the next `module_open` succeeds, and
the first `module_output` of the new session, with `len = 100 > 0`, returns
the zero-length end-of-data result. -/
theorem finished_not_reset_by_open :
    (module_open i386 one_read_session.st proc2 file_block).2 = Outcome.ret 0 ∧
      (module_output (module_open i386 one_read_session.st proc2 file_block).1
        (List.replicate 100 0) 100).2.2 = 0 := by
  decide

/-- C8 (amended): `finished` is a static of `module_output` that
`module_open` leaves alone.  In the state `s` right after a `module_open`
that returned 0 (straight away or after sleeping), following any history
`evs`, the flag is the parity of the number of `module_output` calls made so
far.  If that number is even, the first `module_output` of the session, with
`0 < len`, writes the start of the formatted line and returns the positive
count `min(len, 12 + strlen(Message))`; if it is odd, the call writes
nothing, returns 0 and clears the flag. -/
theorem first_read_after_open (K : Kernel) (evs : List Event) (cur : Task) (file : File)
    (s : State) (buf : List Nat) (len : Nat)
    (hopen : module_open K (run K init evs).st cur file = (s, Outcome.ret 0) ∨
      module_open_wake K (run K init evs).st cur = (s, Outcome.ret 0))
    (hlen : 0 < len) (hbuf : len ≤ buf.length) :
    s.finished = ((outputs K init evs % 2 : Nat) : Int) ∧
      (outputs K init evs % 2 = 0 →
        (module_output s buf len).2.2 = ((min len (12 + (c_str s.Message).length) : Nat) : Int) ∧
        0 < (module_output s buf len).2.2 ∧
        (module_output s buf len).2.1 =
          (LABEL ++ c_str s.Message ++ [10]).take (min len (12 + (c_str s.Message).length)) ++
            buf.drop (min len (12 + (c_str s.Message).length))) ∧
      (outputs K init evs % 2 = 1 →
        module_output s buf len = ({ s with finished := 0 }, buf, 0)) := by
  have hpar := finished_parity K evs init (Or.inl rfl)
  have hinit : init.st.finished.toNat = 0 := rfl
  rw [hinit, Nat.zero_add] at hpar
  have hfin : s.finished = (run K init evs).st.finished := by
    rcases hopen with h | h
    · have := module_open_finished K (run K init evs).st cur file
      rw [h] at this
      exact this
    · have := module_open_wake_finished K (run K init evs).st cur
      rw [h] at this
      exact this
  rw [hpar] at hfin
  refine ⟨hfin, ?_, ?_⟩
  · intro heven
    rw [heven] at hfin
    have hout := module_output_fresh s buf len hfin hbuf
    rw [output_line_length] at hout
    rw [hout]
    refine ⟨rfl, ?_, rfl⟩
    show (0 : Int) < ((min len (12 + (c_str s.Message).length) : Nat) : Int)
    have : 0 < min len (12 + (c_str s.Message).length) := lt_min hlen (by omega)
    exact_mod_cast this
  · intro hodd
    rw [hodd] at hfin
    exact module_output_finished s buf len (by rw [hfin]; decide)

/-- Witness for C8 (amended): the session after `one_read_session`. -/
theorem first_read_after_open_witness :
    ({ one_read_session.st with Already_Open := 1, use_count := 1 } : State).finished = 1 ∧
      module_output { one_read_session.st with Already_Open := 1, use_count := 1 }
          (List.replicate 100 0) 100 =
        ({ one_read_session.st with Already_Open := 1, use_count := 1, finished := 0 },
          List.replicate 100 0, 0) :=
  have h := first_read_after_open i386
    [Event.call_open proc1 file_block, Event.call_read 1 (List.replicate 100 0) 100,
      Event.call_close 1]
    proc2 file_block { one_read_session.st with Already_Open := 1, use_count := 1 }
    (List.replicate 100 0) 100 (Or.inl (by decide)) (by decide) (by decide)
  ⟨h.1, h.2.2 (by decide)⟩

/-! ## `module_close` checks nothing -/

/-- Counterexample to C9 as stated: called on the free gate of the initial
state (`Already_Open = 0`, no holder), `module_close` returns 0, the value
for success. -/
theorem module_close_free_gate_returns_zero :
    init.st.Already_Open = 0 ∧ init.holders = [] ∧ (module_close init.st).2 = 0 := by
  decide

/-- C9 (amended): `module_close` tests neither the gate nor its caller.  In
every state, whoever calls it, it returns 0, sets `Already_Open` to 0, makes
every sleeper runnable and takes one off the use count. -/
theorem module_close_unconditional (s : State) :
    module_close s =
      ({ s with Already_Open := 0, WaitQ := [], woken := s.woken ++ s.WaitQ,
                use_count := s.use_count - 1 }, 0) := by
  simp [module_close, MOD_DEC_USE_COUNT, module_wake_up]

end Sleep

namespace Sched

/-! ## Shutdown of the timer task -/

theorem intrpt_routine_stopping (s : State) (h : s.waitq = 1) :
    intrpt_routine s = wake_up { s with TimerIntrpt := wrap_int (s.TimerIntrpt + 1) } := by
  simp [intrpt_routine, h]

theorem intrpt_routine_running (s : State) (h : s.waitq = 0) :
    intrpt_routine s = queue_task { s with TimerIntrpt := wrap_int (s.TimerIntrpt + 1) } := by
  simp [intrpt_routine, h]

theorem wake_up_fields (s : State) :
    (wake_up s).queued = s.queued ∧ (wake_up s).waitq = s.waitq ∧
      (wake_up s).TimerIntrpt = s.TimerIntrpt ∧
      ((wake_up s).pc = s.pc ∨ (s.pc = Pc.asleep ∧ (wake_up s).pc = Pc.woken)) := by
  unfold wake_up
  split
  · rename_i h; exact ⟨rfl, rfl, rfl, Or.inr ⟨h, rfl⟩⟩
  · exact ⟨rfl, rfl, rfl, Or.inl rfl⟩

/-- Once the shutdown has begun, a tick leaves `Task` off the queue. -/
theorem timer_tick_stopping (s : State) (h : Stopping s) :
    Stopping (timer_tick s) ∧ (timer_tick s).queued = false ∧
      (s.queued = false → timer_tick s = s) := by
  unfold timer_tick
  by_cases hq : s.queued = true
  · rw [if_pos hq, intrpt_routine_stopping { s with queued := false } h.1]
    obtain ⟨h1, h2, _, h4⟩ := wake_up_fields
      { s with queued := false, TimerIntrpt := wrap_int (s.TimerIntrpt + 1) }
    refine ⟨⟨h2.trans h.1, ?_⟩, h1, fun hf => absurd hq (by simp [hf])⟩
    rcases h4 with h4 | ⟨_, h4⟩
    · rw [h4]; exact h.2
    · rw [h4]; simp
  · rw [if_neg hq]
    exact ⟨h, by simpa using hq, fun _ => rfl⟩

/-- Once the shutdown has begun, no step puts `Task` back on the queue, and a
step taken with `Task` off the queue leaves `TimerIntrpt` alone. -/
theorem step_stopping (ENOMEM : Int) (s : State) (e : Event) (h : Stopping s) :
    Stopping (step ENOMEM s e) ∧
      (s.queued = false →
        (step ENOMEM s e).queued = false ∧ (step ENOMEM s e).TimerIntrpt = s.TimerIntrpt) := by
  have hfresh : s.pc ≠ Pc.fresh := by rcases h.2 with h | h | h | h <;> simp [h]
  have hlive : s.pc ≠ Pc.live := by rcases h.2 with h | h | h | h <;> simp [h]
  cases e with
  | load proc_ok =>
    have hs : step ENOMEM s (Event.load proc_ok) = s := by simp [step, hfresh]
    rw [hs]
    exact ⟨h, fun hq => ⟨hq, rfl⟩⟩
  | tick =>
    obtain ⟨h1, _, h3⟩ := timer_tick_stopping s h
    refine ⟨h1, fun hq => ?_⟩
    simp only [step]
    rw [h3 hq]
    exact ⟨hq, rfl⟩
  | unload_enter =>
    have hs : step ENOMEM s Event.unload_enter = s := by simp [step, hlive]
    rw [hs]
    exact ⟨h, fun hq => ⟨hq, rfl⟩⟩
  | unload_sleep =>
    simp only [step]
    split
    · exact ⟨⟨h.1, Or.inr (Or.inl rfl)⟩, fun hq => ⟨hq, rfl⟩⟩
    · exact ⟨h, fun hq => ⟨hq, rfl⟩⟩
  | unload_return =>
    simp only [step]
    split
    · exact ⟨⟨h.1, Or.inr (Or.inr (Or.inr rfl))⟩, fun hq => ⟨hq, rfl⟩⟩
    · exact ⟨h, fun hq => ⟨hq, rfl⟩⟩

/-- With the shutdown begun and `Task` off the queue, nothing ever runs
`intrpt_routine` again. -/
theorem run_stopped (ENOMEM : Int) (evs : List Event) :
    ∀ s, Stopping s → s.queued = false →
      (run ENOMEM s evs).queued = false ∧ (run ENOMEM s evs).TimerIntrpt = s.TimerIntrpt ∧
        routine_runs ENOMEM s evs = 0 := by
  induction evs with
  | nil => intro s _ hq; exact ⟨hq, rfl, rfl⟩
  | cons e evs ih =>
    intro s h hq
    obtain ⟨h1, h2⟩ := step_stopping ENOMEM s e h
    obtain ⟨h3, h4⟩ := h2 hq
    obtain ⟨i1, i2, i3⟩ := ih (step ENOMEM s e) h1 h3
    have hrun : run ENOMEM s (e :: evs) = run ENOMEM (step ENOMEM s e) evs := rfl
    refine ⟨by rw [hrun]; exact i1, by rw [hrun, i2, h4], ?_⟩
    cases e <;> simp [routine_runs, i3, hq]

/-- With the shutdown begun, `intrpt_routine` runs at most once more, and
once it has run `Task` is off the queue. -/
theorem run_stopping (ENOMEM : Int) (evs : List Event) :
    ∀ s, Stopping s →
      Stopping (run ENOMEM s evs) ∧ routine_runs ENOMEM s evs ≤ 1 ∧
        (routine_runs ENOMEM s evs = 1 → (run ENOMEM s evs).queued = false) := by
  induction evs with
  | nil => intro s h; exact ⟨h, Nat.zero_le _, fun h0 => absurd h0 (by simp [routine_runs])⟩
  | cons e evs ih =>
    intro s h
    have hrun : run ENOMEM s (e :: evs) = run ENOMEM (step ENOMEM s e) evs := rfl
    obtain ⟨h1, _⟩ := step_stopping ENOMEM s e h
    obtain ⟨i1, i2, i3⟩ := ih (step ENOMEM s e) h1
    rw [hrun]
    refine ⟨i1, ?_⟩
    by_cases htick : e = Event.tick ∧ s.queued = true
    · obtain ⟨he, hq⟩ := htick
      subst he
      have hoff : (step ENOMEM s Event.tick).queued = false := (timer_tick_stopping s h).2.1
      obtain ⟨j1, _, j3⟩ := run_stopped ENOMEM evs (step ENOMEM s Event.tick) h1 hoff
      simp only [routine_runs, hq, if_true, j3]
      exact ⟨le_refl _, fun _ => j1⟩
    · have hsame : routine_runs ENOMEM s (e :: evs) = routine_runs ENOMEM (step ENOMEM s e) evs := by
        cases e with
        | tick =>
          have hq : s.queued = false := by
            cases hs : s.queued
            · rfl
            · exact absurd ⟨rfl, hs⟩ htick
          simp [routine_runs, hq]
        | load _ => rfl
        | unload_enter => rfl
        | unload_sleep => rfl
        | unload_return => rfl
      rw [hsame]
      exact ⟨i2, i3⟩

theorem inv_init : Inv init :=
  ⟨Or.inl ⟨rfl, Or.inl rfl⟩, fun h => by rcases h with h | h <;> exact absurd h (by decide)⟩

theorem inv_step (ENOMEM : Int) (s : State) (e : Event) (h : Inv s) : Inv (step ENOMEM s e) := by
  obtain ⟨h1, h2⟩ := h
  rcases h1 with ⟨hw, hpc⟩ | hstop
  · -- before the shutdown
    have hnw : s.pc ≠ Pc.woken := by rcases hpc with h | h | h <;> simp [h]
    have hng : s.pc ≠ Pc.gone := by rcases hpc with h | h | h <;> simp [h]
    have hna : s.pc ≠ Pc.asleep := by rcases hpc with h | h | h <;> simp [h]
    have hnf : s.pc ≠ Pc.flagged := by rcases hpc with h | h | h <;> simp [h]
    cases e with
    | load proc_ok =>
      simp only [step]
      split
      · cases proc_ok
        · exact ⟨Or.inl ⟨hw, Or.inr (Or.inr rfl)⟩, fun h => by
            rcases h with h | h <;> exact absurd h (by simp [init_module, queue_task])⟩
        · exact ⟨Or.inl ⟨hw, Or.inr (Or.inl rfl)⟩, fun h => by
            rcases h with h | h <;> exact absurd h (by simp [init_module, queue_task])⟩
      · exact ⟨Or.inl ⟨hw, hpc⟩, h2⟩
    | tick =>
      simp only [step, timer_tick]
      split
      · rw [intrpt_routine_running { s with queued := false } hw]
        exact ⟨Or.inl ⟨hw, hpc⟩, fun h => by
          rcases h with h | h
          · exact absurd h hnw
          · exact absurd h hng⟩
      · exact ⟨Or.inl ⟨hw, hpc⟩, h2⟩
    | unload_enter =>
      simp only [step]
      split
      · exact ⟨Or.inr ⟨rfl, Or.inl rfl⟩, fun h => by
          rcases h with h | h <;> exact absurd h (by simp [cleanup_enter])⟩
      · exact ⟨Or.inl ⟨hw, hpc⟩, h2⟩
    | unload_sleep =>
      simp only [step, if_neg hnf]
      exact ⟨Or.inl ⟨hw, hpc⟩, h2⟩
    | unload_return =>
      simp only [step, if_neg hnw]
      exact ⟨Or.inl ⟨hw, hpc⟩, h2⟩
  · -- during and after the shutdown
    obtain ⟨k1, k2⟩ := step_stopping ENOMEM s e hstop
    refine ⟨Or.inr k1, fun hpc => ?_⟩
    cases e with
    | load proc_ok =>
      have hfresh : s.pc ≠ Pc.fresh := by rcases hstop.2 with h | h | h | h <;> simp [h]
      simp only [step, if_neg hfresh] at hpc ⊢
      exact h2 hpc
    | tick => exact (timer_tick_stopping s hstop).2.1
    | unload_enter =>
      have hlive : s.pc ≠ Pc.live := by rcases hstop.2 with h | h | h | h <;> simp [h]
      simp only [step, if_neg hlive] at hpc ⊢
      exact h2 hpc
    | unload_sleep =>
      simp only [step] at hpc ⊢
      split at hpc
      · rcases hpc with h | h <;> exact absurd h (by simp [cleanup_sleep])
      · rw [if_neg (by assumption)]; exact h2 hpc
    | unload_return =>
      simp only [step] at hpc ⊢
      split
      · rename_i hwk; exact h2 (Or.inl hwk)
      · rw [if_neg (by assumption)] at hpc; exact h2 hpc

theorem inv_run (ENOMEM : Int) (evs : List Event) : ∀ s, Inv s → Inv (run ENOMEM s evs) := by
  induction evs with
  | nil => intro s h; exact h
  | cons e evs ih => intro s h; exact ih (step ENOMEM s e) (inv_step ENOMEM s e h)

theorem run_append (ENOMEM : Int) (s : State) (evs more : List Event) :
    run ENOMEM s (evs ++ more) = run ENOMEM (run ENOMEM s evs) more := by
  simp [run, List.foldl_append]

/-- C10: in every reachable state with `waitq = 1`: a tick leaves `Task` off
the queue; whatever happens next, `intrpt_routine` runs at most once more;
once it has run, `Task` is off the queue; after that (or straight away, if
`Task` was already off the queue) no further event runs `intrpt_routine` or
changes `TimerIntrpt`.  In particular `TimerIntrpt` never changes once
`cleanup_module` has returned. -/
theorem shutdown_at_most_one_tick (ENOMEM : Int) (s : State)
    (hreach : Reachable ENOMEM s) (hflag : s.waitq = 1) :
    (timer_tick s).queued = false ∧
      (∀ evs, routine_runs ENOMEM s evs ≤ 1) ∧
      (∀ evs, routine_runs ENOMEM s evs = 1 → (run ENOMEM s evs).queued = false) ∧
      (∀ evs more, s.queued = false ∨ routine_runs ENOMEM s evs = 1 →
        routine_runs ENOMEM (run ENOMEM s evs) more = 0 ∧
        (run ENOMEM s (evs ++ more)).queued = false ∧
        (run ENOMEM s (evs ++ more)).TimerIntrpt = (run ENOMEM s evs).TimerIntrpt) ∧
      (s.pc = Pc.gone → ∀ evs,
        routine_runs ENOMEM s evs = 0 ∧ (run ENOMEM s evs).TimerIntrpt = s.TimerIntrpt) := by
  obtain ⟨hist, rfl⟩ := hreach
  have hinv := inv_run ENOMEM hist init inv_init
  have hstop : Stopping (run ENOMEM init hist) := by
    rcases hinv.1 with ⟨h0, _⟩ | h
    · rw [h0] at hflag
      exact absurd hflag (by decide)
    · exact h
  refine ⟨(timer_tick_stopping _ hstop).2.1, fun evs => (run_stopping ENOMEM evs _ hstop).2.1,
    fun evs => (run_stopping ENOMEM evs _ hstop).2.2, ?_, ?_⟩
  · intro evs more hcase
    have hs2 := (run_stopping ENOMEM evs _ hstop).1
    have hoff : (run ENOMEM (run ENOMEM init hist) evs).queued = false := by
      rcases hcase with hq | h1
      · exact (run_stopped ENOMEM evs _ hstop hq).1
      · exact (run_stopping ENOMEM evs _ hstop).2.2 h1
    obtain ⟨j1, j2, j3⟩ := run_stopped ENOMEM more _ hs2 hoff
    rw [run_append]
    exact ⟨j3, j1, j2⟩
  · intro hgone evs
    have hoff := hinv.2 (Or.inr hgone)
    obtain ⟨_, j2, j3⟩ := run_stopped ENOMEM evs _ hstop hoff
    exact ⟨j3, j2⟩

/-- Witness for C10: from `flag_raised`, `cleanup_module` goes to sleep, the
last tick wakes it, it returns, and three more ticks are driven:
`intrpt_routine` ran once and `TimerIntrpt` stopped at 4. -/
theorem shutdown_at_most_one_tick_witness :
    flag_raised.waitq = 1 ∧
      routine_runs 12 flag_raised
        [Event.unload_sleep, Event.tick, Event.unload_return, Event.tick, Event.tick, Event.tick] ≤ 1 ∧
      (run 12 flag_raised [Event.unload_sleep, Event.tick]).TimerIntrpt = 4 ∧
      (run 12 flag_raised
        ([Event.unload_sleep, Event.tick] ++
          [Event.unload_return, Event.tick, Event.tick, Event.tick])).TimerIntrpt =
        (run 12 flag_raised [Event.unload_sleep, Event.tick]).TimerIntrpt :=
  have h := shutdown_at_most_one_tick 12 flag_raised ⟨_, rfl⟩ (by decide)
  ⟨by decide, h.2.1 _, by decide, (h.2.2.2.1 [Event.unload_sleep, Event.tick]
    [Event.unload_return, Event.tick, Event.tick, Event.tick] (Or.inr (by decide))).2.2⟩

end Sched

namespace Sleep

/-! ## `Message` stays zero-terminated -/

/-- The loop of `module_input` never leaves the array: started at an index
`i <= 79` it stops at an index `<= 79`, and the array keeps its length. -/
theorem input_loop_bounds (buf : List Nat) (length : Nat) :
    ∀ fuel i msg, i ≤ MESSAGE_LENGTH - 1 →
      (input_loop buf length fuel i msg).1 ≤ MESSAGE_LENGTH - 1 ∧
        (input_loop buf length fuel i msg).2.length = msg.length := by
  intro fuel
  induction fuel with
  | zero => intro i msg hi; exact ⟨hi, rfl⟩
  | succ n ih =>
    intro i msg hi
    simp only [input_loop]
    split
    · rename_i hc
      have h := ih (i + 1) (msg.set i (get_user buf i)) (by omega)
      rw [List.length_set] at h
      exact h
    · exact ⟨hi, rfl⟩

/-- After `module_input`, whatever the buffer and the length passed, an
80-byte `Message` is 80 bytes long and holds a zero byte. -/
theorem module_input_terminated (s : State) (buf : List Nat) (length : Nat)
    (h : s.Message.length = MESSAGE_LENGTH) :
    Terminated (module_input s buf length).1.Message := by
  obtain ⟨h1, h2⟩ := input_loop_bounds buf length MESSAGE_LENGTH 0 s.Message (Nat.zero_le _)
  have hlt : (input_loop buf length MESSAGE_LENGTH 0 s.Message).1 <
      (input_loop buf length MESSAGE_LENGTH 0 s.Message).2.length := by
    rw [h2, h]
    exact lt_of_le_of_lt h1 (by decide)
  refine ⟨?_, (input_loop buf length MESSAGE_LENGTH 0 s.Message).1, h1, ?_⟩
  · simp only [module_input, List.length_set]
    rw [h2, h]
  · simp only [module_input]
    rw [List.getElem?_set_self hlt]

theorem module_output_message (s : State) (buf : List Nat) (len : Nat) :
    (module_output s buf len).1.Message = s.Message := by
  unfold module_output
  split <;> rfl

theorem terminated_io_step (s : State) (c : IoCall) (h : Terminated s.Message) :
    Terminated (io_step s c).Message := by
  cases c with
  | input buf length => exact module_input_terminated s buf length h.1
  | output buf len =>
    simp only [io_step]
    rw [module_output_message]
    exact h

theorem terminated_io_run (calls : List IoCall) :
    ∀ s : State, Terminated s.Message → Terminated (io_run s calls).Message := by
  induction calls with
  | nil => intro s h; exact h
  | cons c calls ih => intro s h; exact ih (io_step s c) (terminated_io_step s c h)

theorem terminated_init : Terminated init.st.Message :=
  ⟨by decide, 0, by decide, by decide⟩

/-- The string in an array ends before any zero byte of the array. -/
theorem c_str_length_le (msg : List Nat) :
    ∀ j, msg[j]? = some 0 → (c_str msg).length ≤ j := by
  induction msg with
  | nil => intro j h; simp at h
  | cons a rest ih =>
    intro j h
    by_cases ha : a = 0
    · simp [c_str, ha]
    · cases j with
      | zero =>
        simp at h
        exact absurd h ha
      | succ k =>
        have hk : rest[k]? = some 0 := by simpa using h
        have hrest := ih k hk
        have hcons : c_str (a :: rest) = a :: c_str rest := by
          unfold c_str
          exact List.takeWhile_cons_of_pos (by simpa using ha)
        rw [hcons, List.length_cons]
        omega

/-- The index at which the loop of `module_output` stops does not depend on
the contents of the user buffer. -/
theorem output_loop_index (message : List Nat) (len : Nat) :
    ∀ fuel i buf1 buf2,
      (output_loop message len fuel i buf1).1 = (output_loop message len fuel i buf2).1 := by
  intro fuel
  induction fuel with
  | zero => intro i buf1 buf2; rfl
  | succ n ih =>
    intro i buf1 buf2
    simp only [output_loop]
    split
    · exact ih (i + 1) _ _
    · rfl

/-- The return value of `module_output`, on any user buffer. -/
theorem module_output_returns (s : State) (buf : List Nat) (len : Nat) :
    (module_output s buf len).2.2 =
      if s.finished = 0 then ((min len (12 + (c_str s.Message).length) : Nat) : Int) else 0 := by
  by_cases hfin : s.finished = 0
  · have hfresh := module_output_fresh s (List.replicate len 0) len hfin (by simp)
    have hsame : (module_output s buf len).2.2 =
        (module_output s (List.replicate len 0) len).2.2 := by
      simp only [module_output, hfin, ne_eq, not_true_eq_false, if_false]
      rw [output_loop_index _ len _ 0 buf (List.replicate len 0)]
    rw [hsame, hfresh, if_pos hfin, output_line_length]
  · rw [module_output_finished s buf len hfin, if_neg hfin]

/-- C14: in every state reached from the zero-initialised module by any
sequence of `module_input` and `module_output` calls, `Message` is 80 bytes
long and some `Message[j]` with `j <= 79` is zero.  Hence the string in it has
at most 79 characters, the line `module_output` formats has at most 91, and
with its terminator it fits in the local array of 110 bytes.  For every `len`
the value `module_output` returns is `min(len, 12 + strlen(Message))` when
`finished = 0` (and 0 otherwise), at most 91 in either case, and
`module_output` leaves `Message` as it is. -/
theorem message_stays_terminated (calls : List IoCall) (buf : List Nat) (len : Nat) :
    (io_run init.st calls).Message.length = MESSAGE_LENGTH ∧
      (∃ j, j ≤ 79 ∧ (io_run init.st calls).Message[j]? = some 0) ∧
      (c_str (io_run init.st calls).Message).length ≤ 79 ∧
      (LABEL ++ c_str (io_run init.st calls).Message ++ [10]).length ≤ 91 ∧
      (sprintf_message (io_run init.st calls).Message).length ≤ MESSAGE_LENGTH + 30 ∧
      (module_output (io_run init.st calls) buf len).2.2 =
        (if (io_run init.st calls).finished = 0 then
          ((min len (12 + (c_str (io_run init.st calls).Message).length) : Nat) : Int)
        else 0) ∧
      (module_output (io_run init.st calls) buf len).2.2 ≤ 91 ∧
      (module_output (io_run init.st calls) buf len).1.Message =
        (io_run init.st calls).Message := by
  obtain ⟨hlen, j, hj, hzero⟩ := terminated_io_run calls init.st terminated_init
  have hstr : (c_str (io_run init.st calls).Message).length ≤ 79 :=
    le_trans (c_str_length_le _ j hzero) hj
  have hret := module_output_returns (io_run init.st calls) buf len
  refine ⟨hlen, ⟨j, hj, hzero⟩, hstr, ?_, ?_, hret, ?_, module_output_message _ buf len⟩
  · simp [LABEL]
    omega
  · simp [sprintf_message, LABEL, MESSAGE_LENGTH]
    omega
  · rw [hret]
    split
    · have : min len (12 + (c_str (io_run init.st calls).Message).length) ≤ 91 :=
        le_trans (min_le_right _ _) (by omega)
      exact_mod_cast this
    · decide

/-- Witness for C14: after `four_calls` the string in `Message` is `"hello"`,
followed by its terminator and the rest of the 79 bytes written first; a read
into 200 bytes returns 17, a read into 10 bytes returns 10. -/
theorem message_stays_terminated_witness :
    (io_run init.st four_calls).Message.length = 80 ∧
      c_str (io_run init.st four_calls).Message = hello ∧
      (io_run init.st four_calls).Message[5]? = some 0 ∧
      (io_run init.st four_calls).Message[6]? = some 65 ∧
      (module_output (io_run init.st four_calls) (List.replicate 200 0) 200).2.2 = 17 ∧
      (module_output (io_run init.st four_calls) (List.replicate 200 0) 10).2.2 = 10 ∧
      (module_output (io_run init.st four_calls) (List.replicate 200 0) 200).1.Message =
        (io_run init.st four_calls).Message :=
  have h := message_stays_terminated four_calls (List.replicate 200 0) 200
  ⟨h.1, by decide, by decide, by decide, by decide, by decide, h.2.2.2.2.2.2.2⟩

end Sleep

namespace Sched

/-! ## The lost wake-up -/

/-- With `cleanup_module` asleep and `Task` off the queue no event is enabled
that changes anything: the state is stuck. -/
theorem step_asleep_unqueued (ENOMEM : Int) (s : State) (e : Event)
    (hpc : s.pc = Pc.asleep) (hq : s.queued = false) : step ENOMEM s e = s := by
  cases e <;> simp [step, timer_tick, hpc, hq]

theorem run_asleep_unqueued (ENOMEM : Int) (s : State) (evs : List Event)
    (hpc : s.pc = Pc.asleep) (hq : s.queued = false) : run ENOMEM s evs = s := by
  induction evs with
  | nil => rfl
  | cons e evs ih =>
    have hrun : run ENOMEM s (e :: evs) = run ENOMEM (step ENOMEM s e) evs := rfl
    rw [hrun, step_asleep_unqueued ENOMEM s e hpc hq]
    exact ih

/-- C11 (fails on the code): the state `lost_wake_up` is reachable, by a
shutdown started right after `init_module` with one tick between `waitq = 1`
and `sleep_on(&WaitQ)`.  In it `cleanup_module` is asleep on `WaitQ`, `Task`
is off `tq_timer` (the final tick has already issued its `wake_up`, to an
empty queue), and whatever events follow the state never changes:
`cleanup_module` sleeps for ever. -/
theorem shutdown_lost_wake_up :
    Reachable 12 lost_wake_up ∧
      lost_wake_up.waitq = 1 ∧ lost_wake_up.pc = Pc.asleep ∧ lost_wake_up.queued = false ∧
      (run 12 init [Event.load true, Event.unload_enter, Event.tick]).pc = Pc.flagged ∧
      (run 12 init [Event.load true, Event.unload_enter, Event.tick]).queued = false ∧
      ∀ (ENOMEM : Int) (evs : List Event), run ENOMEM lost_wake_up evs = lost_wake_up :=
  ⟨⟨_, rfl⟩, by decide, by decide, by decide, by decide, by decide,
    fun ENOMEM evs => run_asleep_unqueued ENOMEM lost_wake_up evs (by decide) (by decide)⟩

/-! ## One call of `intrpt_routine` -/

theorem wrap_int_in_range (x : Int) (hlo : -2 ^ 31 ≤ x) (hhi : x < 2 ^ 31) : wrap_int x = x := by
  unfold wrap_int
  omega

theorem wrap_int_overflow : wrap_int (2 ^ 31 - 1 + 1) = -2 ^ 31 := by
  decide

/-- Counterexample to C12 as stated: with `TimerIntrpt = INT_MAX` a call of
`intrpt_routine` leaves `TimerIntrpt = INT_MIN`, which is not the old value
plus one. -/
theorem intrpt_routine_wraps_at_int_max :
    counter_at_max.TimerIntrpt = 2147483647 ∧
      (intrpt_routine counter_at_max).TimerIntrpt = -2147483648 ∧
      (intrpt_routine counter_at_max).TimerIntrpt ≠ counter_at_max.TimerIntrpt + 1 := by
  decide

/-- C12 (amended): for every state whose `TimerIntrpt` is an `int` value, one
call of `intrpt_routine` increments `TimerIntrpt` by one in `int` arithmetic:
by exactly one below `INT_MAX`, and from `INT_MAX` to `INT_MIN`.  Then it does
exactly one of two things.  If `waitq != 0` it wakes the waiter on `WaitQ`
(a sleeping `cleanup_module` becomes runnable) and leaves the queue state of
`Task` as it is, so does not put it back.  If `waitq = 0` it puts `Task` back
on `tq_timer` and wakes nobody.  It never changes `waitq`. -/
theorem intrpt_routine_effect (s : State)
    (hlo : -2 ^ 31 ≤ s.TimerIntrpt) (hhi : s.TimerIntrpt ≤ 2 ^ 31 - 1) :
    (intrpt_routine s).TimerIntrpt =
        (if s.TimerIntrpt = 2 ^ 31 - 1 then -2 ^ 31 else s.TimerIntrpt + 1) ∧
      (intrpt_routine s).waitq = s.waitq ∧
      (intrpt_routine s).proc_entry = s.proc_entry ∧
      (s.waitq ≠ 0 →
        (intrpt_routine s).queued = s.queued ∧
        (intrpt_routine s).pc = (if s.pc = Pc.asleep then Pc.woken else s.pc)) ∧
      (s.waitq = 0 →
        (intrpt_routine s).queued = true ∧ (intrpt_routine s).pc = s.pc) := by
  have hcount : wrap_int (s.TimerIntrpt + 1) =
      (if s.TimerIntrpt = 2 ^ 31 - 1 then -2 ^ 31 else s.TimerIntrpt + 1) := by
    split
    · rename_i h
      rw [h]
      exact wrap_int_overflow
    · rename_i h
      exact wrap_int_in_range _ (by omega) (by omega)
  by_cases hw : s.waitq = 0
  · have hrun : intrpt_routine s =
        queue_task { s with TimerIntrpt := wrap_int (s.TimerIntrpt + 1) } := by
      simp [intrpt_routine, hw]
    rw [hrun]
    exact ⟨hcount, rfl, rfl, fun h => absurd hw h, fun _ => ⟨rfl, rfl⟩⟩
  · have hrun : intrpt_routine s =
        wake_up { s with TimerIntrpt := wrap_int (s.TimerIntrpt + 1) } := by
      simp [intrpt_routine, hw]
    rw [hrun]
    by_cases ha : s.pc = Pc.asleep
    · simp [wake_up, ha, hw, hcount]
    · simp [wake_up, ha, hw, hcount]

/-- Witness for C12 (amended): the last tick of a shutdown, counter at 41. -/
theorem intrpt_routine_effect_witness :
    (intrpt_routine last_tick_due).TimerIntrpt = 42 ∧
      (intrpt_routine last_tick_due).waitq = 1 ∧
      (intrpt_routine last_tick_due).queued = false ∧
      (intrpt_routine last_tick_due).pc = Pc.woken :=
  have h := intrpt_routine_effect last_tick_due (by decide) (by decide)
  ⟨h.1, h.2.1, (h.2.2.2.1 (by decide)).1, (h.2.2.2.1 (by decide)).2⟩

/-! ## A failed `init_module` -/

theorem orphaned_step (ENOMEM : Int) (s : State) (e : Event) (h : Orphaned s) :
    Orphaned (step ENOMEM s e) := by
  obtain ⟨hpc, hw, hq⟩ := h
  cases e with
  | load proc_ok => simpa [step, hpc] using ⟨hpc, hw, hq⟩
  | tick =>
    simp only [step, timer_tick, hq, if_true]
    have hrun : intrpt_routine { s with queued := false } =
        queue_task { s with queued := false, TimerIntrpt := wrap_int (s.TimerIntrpt + 1) } := by
      simp [intrpt_routine, hw]
    rw [hrun]
    exact ⟨hpc, hw, rfl⟩
  | unload_enter => simpa [step, hpc] using ⟨hpc, hw, hq⟩
  | unload_sleep => simpa [step, hpc] using ⟨hpc, hw, hq⟩
  | unload_return => simpa [step, hpc] using ⟨hpc, hw, hq⟩

theorem orphaned_run (ENOMEM : Int) (evs : List Event) :
    ∀ s, Orphaned s → Orphaned (run ENOMEM s evs) := by
  induction evs with
  | nil => intro s h; exact h
  | cons e evs ih => intro s h; exact ih (step ENOMEM s e) (orphaned_step ENOMEM s e h)

theorem orphaned_ticks (ENOMEM : Int) (n : Nat) :
    ∀ s, Orphaned s → routine_runs ENOMEM s (List.replicate n Event.tick) = n := by
  induction n with
  | zero => intro s _; rfl
  | succ n ih =>
    intro s h
    have hnext := ih (step ENOMEM s Event.tick) (orphaned_step ENOMEM s Event.tick h)
    simp only [List.replicate_succ, routine_runs, h.2.2, if_true, hnext]
    omega

/-- C13 (fails on the code): when `create_proc_read_entry` fails,
`init_module` returns `-ENOMEM`, so the module does not stay loaded, but
`Task` is on `tq_timer`: the `queue_task` of line 114 is not undone.  From
then on `Task` stays queued whatever happens, and every tick runs
`intrpt_routine` once more. -/
theorem failed_init_leaves_task_queued (ENOMEM : Int) :
    (init_module ENOMEM false init).2 = -ENOMEM ∧
      (init_module ENOMEM false init).1.pc = Pc.failed ∧
      (init_module ENOMEM false init).1.queued = true ∧
      (∀ evs, (run ENOMEM (init_module ENOMEM false init).1 evs).pc = Pc.failed ∧
        (run ENOMEM (init_module ENOMEM false init).1 evs).queued = true) ∧
      ∀ n, routine_runs ENOMEM (init_module ENOMEM false init).1
        (List.replicate n Event.tick) = n := by
  have horph : Orphaned (init_module ENOMEM false init).1 := ⟨rfl, rfl, rfl⟩
  refine ⟨rfl, rfl, rfl, fun evs => ?_, fun n => orphaned_ticks ENOMEM n _ horph⟩
  have h := orphaned_run ENOMEM evs _ horph
  exact ⟨h.1, h.2.2⟩

end Sched
